import Mathlib

/-!
# mongopaging: keyset pagination over a MongoDB find command

A shallow embedding of `cursor.go` and `query.go`.

* Go strings are Lean `String`s; `field[0]` and `field[1:]` are read off the
  character list, with the bounds check of Go made explicit (`none` is the
  run-time panic of an out-of-range access).
* `interface{}` values are `Option V` for an arbitrary payload type `V`, the
  nil interface being `none`; a `bson.D` is a list of elements and a field of
  type `bson.D` is an `Option`, `none` being the nil slice.
* `error` is `Option Error`, `none` being nil.
* The database handle, `bson.Unmarshal` on replies and on raw documents, and
  the `Cursor` codec are the fields `db`, `cursor` of the builder, as in the
  source: they are functions supplied from outside.
* Methods on `*pagingQuery` that mutate the receiver return the new state.
-/

namespace mongopaging

/-- Go `error` values. -/
abbrev Error := String

/-- A `bson.E`: key and `interface{}` value. -/
abbrev E (V : Type) := String × Option V

/-- A non-nil `bson.D`: an ordered list of elements. -/
abbrev D (V : Type) := List (E V)

/-- A `bson.M` read by key: `doc[k]` is the nil interface when `k` is absent. -/
abbrev M (V : Type) := String → Option V

/-- The values that `prepareCommand` puts in the command document. -/
inductive CmdVal (V : Type) where
  | str (s : String)
  | uint (n : Nat)
  | bool (b : Bool)
  | int (i : Int)
  | any (v : V)
  | m (k : String) (v : Int)
  | d (doc : D V)
  deriving DecidableEq, Repr

/-- The command document handed to `RunCommand`: a `bson.D`. -/
abbrev Cmd (V : Type) := List (String × CmdVal V)

/-- `type Cursor interface` of cursor.go. `Parse` returns the pair
`(cursorData, err)` of the source, `cursorData` possibly nil. -/
structure Cursor (V : Type) where
  Create : D V → String × Option Error
  Parse : String → Option (D V) × Option Error

/-- What `Decode` needs of `*mongo.Database` and of package bson:
`RunCommand` gives the reply and an error; `UnmarshalReply` is
`bson.Unmarshal(data, &res)` read at `res.Cursor.FirstBatch` (a possibly nil
slice of raw documents); `UnmarshalDoc` is `bson.Unmarshal(raw, &doc)` into
a `bson.M`. -/
structure Database (V Reply Raw : Type) where
  RunCommand : Cmd V → Reply × Option Error
  UnmarshalReply : Reply → Option (List Raw) × Option Error
  UnmarshalDoc : Raw → M V × Option Error

/-- `type pagingQuery struct`. -/
structure pagingQuery (V Reply Raw : Type) where
  db : Database V Reply Raw
  collection : String
  criteria : Option V
  projection : Option V
  sortKind : Int
  sortField : String
  limit : Nat
  cursorValue : String
  cursorField : String
  cursorError : Option Error
  cursor : Cursor V
  max : Option (D V)
  min : Option (D V)

variable {V Reply Raw : Type}

/-- `New`, with the codec as an argument (the source passes `cursor{}`):
every other field has its zero value. -/
def New (db : Database V Reply Raw) (codec : Cursor V) (collection : String) :
    pagingQuery V Reply Raw :=
  { db := db, collection := collection, criteria := none, projection := none,
    sortKind := 0, sortField := "", limit := 0, cursorValue := "",
    cursorField := "", cursorError := none, cursor := codec,
    max := none, min := none }

/-- `Find`. -/
def pagingQuery.Find (q : pagingQuery V Reply Raw) (criteria : Option V) :
    pagingQuery V Reply Raw :=
  { q with criteria := criteria }

/-- Go `s[0]`: the first byte, a panic (`none`) on the empty string. -/
def index0 (s : String) : Option Char :=
  s.data.head?

/-- Go `s[1:]`: a panic (`none`) on the empty string. -/
def slice1 (s : String) : Option String :=
  match s.data with
  | [] => none
  | _ :: rest => some (String.mk rest)

/-- `sort`: the sort field and direction from the custom format
(`-fieldname`). `none` is a run-time panic. -/
def pagingQuery.sort (q : pagingQuery V Reply Raw) (field : String) :
    Option (pagingQuery V Reply Raw) := do
  let n : Int := 1
  let field := if field = "" then "-_id" else field
  let c ← index0 field
  if c = '+' then
    let field ← slice1 field
    pure { q with sortField := field, sortKind := n }
  else
    let c ← index0 field
    if c = '-' then
      let field ← slice1 field
      pure { q with sortField := field, sortKind := -1 }
    else
      pure { q with sortField := field, sortKind := n }

/-- `Sort`. -/
def pagingQuery.Sort (q : pagingQuery V Reply Raw) (field : String) :
    Option (pagingQuery V Reply Raw) :=
  q.sort field

/-- `Limit`. -/
def pagingQuery.Limit (q : pagingQuery V Reply Raw) (count : Nat) :
    pagingQuery V Reply Raw :=
  { q with limit := count }

/-- `Cursor`. -/
def pagingQuery.Cursor (q : pagingQuery V Reply Raw) (lastCursorValue : String) :
    pagingQuery V Reply Raw :=
  { q with cursorValue := lastCursorValue }

/-- `Select`. -/
def pagingQuery.Select (q : pagingQuery V Reply Raw) (selector : Option V) :
    pagingQuery V Reply Raw :=
  { q with projection := selector }

/-- `getMinOrMax`: the new state and the returned error. -/
def pagingQuery.getMinOrMax (q : pagingQuery V Reply Raw) :
    pagingQuery V Reply Raw × Option Error :=
  let q := { q with cursorField := q.sortField }
  let q :=
    if q.cursorValue ≠ "" then
      if q.sortKind = -1 then
        let r := q.cursor.Parse q.cursorValue
        { q with max := r.1, cursorError := r.2 }
      else
        let r := q.cursor.Parse q.cursorValue
        { q with min := r.1, cursorError := r.2 }
    else
      { q with min := none, max := none, cursorError := none }
  match q.cursorError with
  | some e => (q, some e)
  | none => (q, none)

/-- `prepareCommand`: the new state and the returned pair, which is either
`(nil, err)` or `(cmd, nil)`. -/
def pagingQuery.prepareCommand (q : pagingQuery V Reply Raw) :
    pagingQuery V Reply Raw × Except Error (Cmd V) :=
  let (q, err) := q.getMinOrMax
  match err with
  | some e => (q, .error e)
  | none =>
    let cmd : Cmd V :=
      [ ("find", CmdVal.str q.collection),
        ("limit", CmdVal.uint q.limit),
        ("batchSize", CmdVal.uint q.limit),
        ("singleBatch", CmdVal.bool true) ]
    let cmd := match q.criteria with
      | some c => cmd ++ [("filter", CmdVal.any c)]
      | none => cmd
    let cmd := if q.sortField ≠ "" then
        cmd ++ [("sort", CmdVal.m q.sortField q.sortKind)]
      else cmd
    let cmd := match q.projection with
      | some p => cmd ++ [("projection", CmdVal.any p)]
      | none => cmd
    let cmd := match q.min with
      | some mn => cmd ++ [("skip", CmdVal.int 1), ("min", CmdVal.d mn)]
      | none => cmd
    let cmd := match q.max with
      | some mx => cmd ++ [("max", CmdVal.d mx)]
      | none => cmd
    (q, .ok cmd)

/-- The outcome of one `Decode` call: the three returned values, the
builder afterwards, and the commands that were handed to `RunCommand`. -/
structure DecodeResult (V Reply Raw : Type) where
  result : Option (List Raw)
  cursor : String
  err : Option Error
  q : pagingQuery V Reply Raw
  sent : List (Cmd V)

/-- `Decode`. The named results start as `nil`, `""`, `nil`. -/
def pagingQuery.Decode (q : pagingQuery V Reply Raw) : DecodeResult V Reply Raw :=
  match q.prepareCommand with
  | (q, .error e) => { result := none, cursor := "", err := some e, q := q, sent := [] }
  | (q, .ok cmd) =>
    match q.db.RunCommand cmd with
    | (_, some e) => { result := none, cursor := "", err := some e, q := q, sent := [cmd] }
    | (data, none) =>
      match q.db.UnmarshalReply data with
      | (_, some e) => { result := none, cursor := "", err := some e, q := q, sent := [cmd] }
      | (result, none) =>
        match (result.getD []).getLast? with
        | some last =>
          if q.cursorField ≠ "" then
            match q.db.UnmarshalDoc last with
            | (_, some e) =>
              { result := result, cursor := "", err := some e, q := q, sent := [cmd] }
            | (doc, none) =>
              let cursorData : D V := [(q.cursorField, doc q.cursorField)]
              let r := q.cursor.Create cursorData
              { result := result, cursor := r.1, err := r.2, q := q, sent := [cmd] }
          else
            { result := result, cursor := "", err := none, q := q, sent := [cmd] }
        | none =>
          { result := result, cursor := q.cursorValue, err := none, q := q, sent := [cmd] }

/-- `Explain`, as far as the builder is concerned: the command is built and
rendered, nothing is run. -/
def pagingQuery.Explain (q : pagingQuery V Reply Raw) : pagingQuery V Reply Raw :=
  q.prepareCommand.1

/-- The command that `prepareCommand` assembles from a builder whose bounds
are in place. -/
def commandOf (q : pagingQuery V Reply Raw) : Cmd V :=
  [ ("find", CmdVal.str q.collection), ("limit", CmdVal.uint q.limit),
    ("batchSize", CmdVal.uint q.limit), ("singleBatch", CmdVal.bool true) ]
  ++ (q.criteria.map fun c => ("filter", CmdVal.any c)).toList
  ++ (if q.sortField ≠ "" then [("sort", CmdVal.m q.sortField q.sortKind)] else [])
  ++ (q.projection.map fun p => ("projection", CmdVal.any p)).toList
  ++ (match q.min with
      | some mn => [("skip", CmdVal.int 1), ("min", CmdVal.d mn)]
      | none => [])
  ++ (q.max.map fun mx => ("max", CmdVal.d mx)).toList

/-- The value stored under `key` in a command, if any (first occurrence). -/
def Cmd.get {V : Type} (cmd : Cmd V) (key : String) : Option (CmdVal V) :=
  List.lookup key cmd

/-- The builders that a program can hold: `New` followed by any calls of
the methods of the interface. -/
inductive Reachable : pagingQuery V Reply Raw → Prop where
  | new (db : Database V Reply Raw) (codec : Cursor V) (collection : String) :
      Reachable (New db codec collection)
  | find {q} (c : Option V) : Reachable q → Reachable (q.Find c)
  | sort {q q1} (s : String) : Reachable q → q.Sort s = some q1 → Reachable q1
  | limit {q} (n : Nat) : Reachable q → Reachable (q.Limit n)
  | cursor {q} (t : String) : Reachable q → Reachable (q.Cursor t)
  | select {q} (p : Option V) : Reachable q → Reachable (q.Select p)
  | decode {q} : Reachable q → Reachable q.Decode.q
  | explain {q} : Reachable q → Reachable q.Explain

/-- The builders fresh from `New`: configured by the setters, never yet
used to build a command. -/
inductive Fresh : pagingQuery V Reply Raw → Prop where
  | new (db : Database V Reply Raw) (codec : Cursor V) (collection : String) :
      Fresh (New db codec collection)
  | find {q} (c : Option V) : Fresh q → Fresh (q.Find c)
  | sort {q q1} (s : String) : Fresh q → q.Sort s = some q1 → Fresh q1
  | limit {q} (n : Nat) : Fresh q → Fresh (q.Limit n)
  | cursor {q} (t : String) : Fresh q → Fresh (q.Cursor t)
  | select {q} (p : Option V) : Fresh q → Fresh (q.Select p)

/-! ## The codec of cursor.go

`encoding/base64` and package `bson` are libraries outside the repository.
`base64.RawURLEncoding` is modelled after the Go standard library; package
`bson` is a pair of functions `Marshal`, `Unmarshal`, given below for
documents with scalar values. -/

/-- A byte. -/
abbrev Byte := Fin 256

/-- The alphabet `encodeURL` of `encoding/base64`. -/
def encodeURL : List Char :=
  "ABCDEFGHIJKLMNOPQRSTUVWXYZabcdefghijklmnopqrstuvwxyz0123456789-_".data

/-- `enc.encode[n]`, for `n < 64`. -/
def encodeChar (n : Nat) : Char :=
  encodeURL.getD n 'A'

/-- `enc.decodeMap[c]`: the position of `c` in the alphabet, `none` for the
entry `0xff` of a byte outside it. -/
def decodeMap (c : Char) : Option Nat :=
  let i := encodeURL.indexOf c
  if i < 64 then some i else none

/-- The 6-bit groups that `Encode` writes for `src`, without padding: four
for each three bytes, then two or three for a remainder of one or two
bytes. -/
def sextetsOf : List Byte → List Nat
  | b0 :: b1 :: b2 :: rest =>
    let val := b0.val * 65536 + b1.val * 256 + b2.val
    (val / 262144 % 64) :: (val / 4096 % 64) :: (val / 64 % 64) :: (val % 64) :: sextetsOf rest
  | [b0, b1] =>
    let val := b0.val * 65536 + b1.val * 256
    [val / 262144 % 64, val / 4096 % 64, val / 64 % 64]
  | [b0] =>
    let val := b0.val * 65536
    [val / 262144 % 64, val / 4096 % 64]
  | [] => []

/-- `base64.RawURLEncoding.EncodeToString`. -/
def EncodeToString (src : List Byte) : String :=
  String.mk ((sextetsOf src).map encodeChar)

/-- The error of `DecodeString` (a `CorruptInputError`). -/
def corruptInput : Error := "illegal base64 data"

/-- The 6-bit values of the input characters, as `decodeQuantum` reads
them: `\r` and `\n` are skipped, any other character outside the alphabet
(the padding character included, the encoding having none) is an error. -/
def readSextets : List Char → Option (List Nat)
  | [] => some []
  | c :: cs =>
    match decodeMap c with
    | some v => (readSextets cs).map (v :: ·)
    | none => if c = '\n' ∨ c = '\r' then readSextets cs else none

/-- The bytes of a sequence of 6-bit values: three for each four values;
at the end two values give one byte and three give two (trailing bits are
dropped, the encoding not being strict), a single value is an error. -/
def bytesOf : List Nat → Option (List Byte)
  | s0 :: s1 :: s2 :: s3 :: rest =>
    let val := s0 * 262144 + s1 * 4096 + s2 * 64 + s3
    (bytesOf rest).map
      (Fin.ofNat (val / 65536 % 256) :: Fin.ofNat (val / 256 % 256) :: Fin.ofNat (val % 256) :: ·)
  | [s0, s1, s2] =>
    let val := s0 * 262144 + s1 * 4096 + s2 * 64
    some [Fin.ofNat (val / 65536 % 256), Fin.ofNat (val / 256 % 256)]
  | [s0, s1] =>
    let val := s0 * 262144 + s1 * 4096
    some [Fin.ofNat (val / 65536 % 256)]
  | [_] => none
  | [] => some []

/-- `base64.RawURLEncoding.DecodeString`: the decoded bytes, or the error
(the bytes decoded before an error are not used by the caller). -/
def DecodeString (s : String) : Except Error (List Byte) :=
  match (readSextets s.data).bind bytesOf with
  | some data => .ok data
  | none => .error corruptInput

/-- Package bson as used by cursor.go: `Marshal` of a `bson.D`, and
`Unmarshal(data, &cursorData)` into a nil `bson.D`, which gives the value
left in `cursorData` and the error. -/
structure Bson (V : Type) where
  Marshal : D V → List Byte × Option Error
  Unmarshal : List Byte → Option (D V) × Option Error

/-- `cursor.Create`. -/
def cursor.Create (bson : Bson V) (cursorData : D V) : String × Option Error :=
  let (data, err) := bson.Marshal cursorData
  (EncodeToString data, err)

/-- `cursor.Parse`. -/
def cursor.Parse (bson : Bson V) (c : String) : Option (D V) × Option Error :=
  match DecodeString c with
  | .error err => (none, some err)
  | .ok data => bson.Unmarshal data

/-- The codec `cursor{}` as a `Cursor`. -/
def cursor (bson : Bson V) : Cursor V :=
  { Create := cursor.Create bson, Parse := cursor.Parse bson }

/-! ### Package bson on scalar values

Documents whose values are nil or scalars of the kinds float64, string,
ObjectID, bool, int32 and int64, laid out as in the BSON format: a
little-endian `int32` total length, the elements (type byte, key, NUL,
payload) and a closing NUL. `Marshal` does not encode a nil value;
`Unmarshal` reads the type null as a nil value. Strings are `String`s, so a
key or a string value is read back only from bytes that are UTF-8. Elements
of the other BSON types (documents, arrays, dates, ...) have no value here:
reading one is reported as an error. -/

/-- The `n` low bytes of `x`, little-endian. -/
def leBytes : Nat → Nat → List Byte
  | 0, _ => []
  | n + 1, x => Fin.ofNat (x % 256) :: leBytes n (x / 256)

/-- The number with little-endian bytes `bs`. -/
def leNat : List Byte → Nat
  | [] => 0
  | b :: bs => b.val + 256 * leNat bs

/-- The UTF-8 bytes of a character. -/
def utf8Char (c : Char) : List Byte :=
  let n := c.toNat
  if n < 128 then [Fin.ofNat n]
  else if n < 2048 then [Fin.ofNat (192 + n / 64), Fin.ofNat (128 + n % 64)]
  else if n < 65536 then
    [Fin.ofNat (224 + n / 4096), Fin.ofNat (128 + n / 64 % 64), Fin.ofNat (128 + n % 64)]
  else
    [Fin.ofNat (240 + n / 262144), Fin.ofNat (128 + n / 4096 % 64),
      Fin.ofNat (128 + n / 64 % 64), Fin.ofNat (128 + n % 64)]

/-- The bytes of a Go string. -/
def utf8 (s : String) : List Byte :=
  (s.data.map utf8Char).flatten

/-- The first character of UTF-8 bytes, and the bytes after it. -/
def readChar : List Byte → Option (Char × List Byte)
  | [] => none
  | b0 :: rest =>
    if b0.val < 128 then some (Char.ofNat b0.val, rest)
    else if b0.val < 192 then none
    else if b0.val < 224 then
      match rest with
      | b1 :: r =>
        if 128 ≤ b1.val ∧ b1.val < 192 then
          some (Char.ofNat ((b0.val - 192) * 64 + (b1.val - 128)), r)
        else none
      | _ => none
    else if b0.val < 240 then
      match rest with
      | b1 :: b2 :: r =>
        if 128 ≤ b1.val ∧ b1.val < 192 ∧ 128 ≤ b2.val ∧ b2.val < 192 then
          some (Char.ofNat ((b0.val - 224) * 4096 + (b1.val - 128) * 64 + (b2.val - 128)), r)
        else none
      | _ => none
    else if b0.val < 248 then
      match rest with
      | b1 :: b2 :: b3 :: r =>
        if 128 ≤ b1.val ∧ b1.val < 192 ∧ 128 ≤ b2.val ∧ b2.val < 192 ∧
            128 ≤ b3.val ∧ b3.val < 192 then
          some (Char.ofNat ((b0.val - 240) * 262144 + (b1.val - 128) * 4096 +
            (b2.val - 128) * 64 + (b3.val - 128)), r)
        else none
      | _ => none
    else none

/-- The characters of UTF-8 bytes; `fuel` bounds their number. -/
def readChars : Nat → List Byte → Option (List Char)
  | _, [] => some []
  | 0, _ :: _ => none
  | fuel + 1, b :: bs =>
    match readChar (b :: bs) with
    | none => none
    | some (c, rest) => (readChars fuel rest).map (c :: ·)

/-- The Go string with bytes `bs`, when they are UTF-8. -/
def fromUtf8 (bs : List Byte) : Option String :=
  (readChars bs.length bs).map String.mk

/-- A non-nil scalar value as `bson.Unmarshal` gives it: a float64 (by its
IEEE 754 bits), a string, an ObjectID (its 12 bytes as a number), a bool, an
int32 and an int64 (both by their two's complement bits). -/
inductive Scalar where
  | double (bits : Fin 18446744073709551616)
  | str (s : String)
  | objectID (id : Fin 79228162514264337593543950336)
  | bool (b : Bool)
  | int32 (bits : Fin 4294967296)
  | int64 (bits : Fin 18446744073709551616)
  deriving DecidableEq, Repr

/-- The BSON type byte of a scalar. -/
def Scalar.tag : Scalar → Byte
  | .double _ => 1
  | .str _ => 2
  | .objectID _ => 7
  | .bool _ => 8
  | .int32 _ => 16
  | .int64 _ => 18

/-- The payload of a scalar: fixed-width little-endian bytes, one byte for
a bool, and for a string its `int32` length (closing NUL included), its
bytes and a NUL. -/
def Scalar.payload : Scalar → List Byte
  | .double bits => leBytes 8 bits.val
  | .str s => leBytes 4 ((utf8 s).length + 1) ++ utf8 s ++ [0]
  | .objectID id => leBytes 12 id.val
  | .bool b => [if b then 1 else 0]
  | .int32 bits => leBytes 4 bits.val
  | .int64 bits => leBytes 8 bits.val

/-- One element. A nil value is not encoded: `bson.Marshal` returns an
error on it. -/
def elemBytes : E Scalar → Option (List Byte)
  | (_, none) => none
  | (k, some v) => some (v.tag :: utf8 k ++ [0] ++ v.payload)

/-- The elements of a document one after the other; `none` when one of
them is not encoded. -/
def elemsBytes : D Scalar → Option (List Byte)
  | [] => some []
  | e :: es =>
    match elemBytes e, elemsBytes es with
    | some b, some bs => some (b ++ bs)
    | _, _ => none

/-- `bson.Marshal` of a `bson.D`. The bytes of a key are written as they
are, a NUL among them included. -/
def goMarshal (d : D Scalar) : List Byte × Option Error :=
  match elemsBytes d with
  | some body => (leBytes 4 (body.length + 5) ++ body ++ [0], none)
  | none => ([], some "bson: cannot encode a nil value")

/-- The bytes of a key up to its closing NUL, and the bytes after it. -/
def readKey : List Byte → Option (List Byte × List Byte)
  | [] => none
  | b :: bs =>
    if b.val = 0 then some ([], bs)
    else (readKey bs).map fun r => (b :: r.1, r.2)

/-- The value of an element with type byte `tag` (nil for the type null),
and the bytes after it. -/
def readValue (tag : Nat) (r : List Byte) : Option (Option Scalar × List Byte) :=
  if tag = 1 then
    if 8 ≤ r.length then some (some (.double (Fin.ofNat (leNat (r.take 8)))), r.drop 8)
    else none
  else if tag = 2 then
    if 4 ≤ r.length then
      let n := leNat (r.take 4)
      let body := r.drop 4
      if 1 ≤ n ∧ n ≤ body.length ∧ (body.drop (n - 1)).head? = some 0 then
        (fromUtf8 (body.take (n - 1))).map fun s => (some (.str s), body.drop n)
      else none
    else none
  else if tag = 7 then
    if 12 ≤ r.length then some (some (.objectID (Fin.ofNat (leNat (r.take 12)))), r.drop 12)
    else none
  else if tag = 8 then
    match r with
    | b :: rest =>
      if b.val = 0 then some (some (.bool false), rest)
      else if b.val = 1 then some (some (.bool true), rest)
      else none
    | [] => none
  else if tag = 10 then some (none, r)
  else if tag = 16 then
    if 4 ≤ r.length then some (some (.int32 (Fin.ofNat (leNat (r.take 4)))), r.drop 4)
    else none
  else if tag = 18 then
    if 8 ≤ r.length then some (some (.int64 (Fin.ofNat (leNat (r.take 8)))), r.drop 8)
    else none
  else none

/-- The error of `bson.Unmarshal` on bytes that are not a document. -/
def invalidDocument : Error := "bson: invalid document"

/-- The elements up to the closing NUL, which must end the input: the
elements read, and the error that stopped the reading if any. `fuel` bounds
the number of elements. -/
def readElems : Nat → List Byte → D Scalar × Option Error
  | 0, _ => ([], some invalidDocument)
  | _ + 1, [] => ([], some invalidDocument)
  | fuel + 1, t :: bs =>
    if t.val = 0 then (if bs = [] then ([], none) else ([], some invalidDocument))
    else
      match readKey bs with
      | none => ([], some invalidDocument)
      | some (kb, r) =>
        match fromUtf8 kb with
        | none => ([], some invalidDocument)
        | some k =>
          match readValue t.val r with
          | none => ([], some invalidDocument)
          | some (v, r1) =>
            let rest := readElems fuel r1
            ((k, v) :: rest.1, rest.2)

/-- `bson.Unmarshal(data, &cursorData)` into a nil `bson.D`: the elements are
appended as they are read, so `cursorData` stays nil when none is read (the
empty document included) and holds the elements read before an error. -/
def goUnmarshal (data : List Byte) : Option (D Scalar) × Option Error :=
  if 5 ≤ data.length ∧ leNat (data.take 4) = data.length then
    match readElems data.length (data.drop 4) with
    | ([], err) => (none, err)
    | (e :: es, err) => (some (e :: es), err)
  else (none, some invalidDocument)

/-- Package bson on scalar values. -/
def goBson : Bson Scalar :=
  { Marshal := goMarshal, Unmarshal := goUnmarshal }

/-! ### Package bson on int64 values

The documents of the scenario have int64 values, written as integers: the
functions above, restricted to nil and int64 values. A scalar of another
kind has no value here and is reported as an error. -/

/-- An element with an int64 value as a scalar element; `none` for an
integer that no int64 holds. -/
def toScalar : E Int → Option (E Scalar)
  | (k, none) => some (k, none)
  | (k, some i) =>
    if -9223372036854775808 ≤ i ∧ i < 9223372036854775808 then
      some (k, some (.int64 (Fin.ofNat (i % 18446744073709551616).toNat)))
    else none

/-- `bson.Marshal` on documents with int64 values. -/
def int64Marshal (d : D Int) : List Byte × Option Error :=
  match d.mapM toScalar with
  | some ds => goMarshal ds
  | none => ([], some "bson: value outside the int64 fragment")

/-- The elements of a scalar document up to the first whose value is
neither nil nor an int64, and an error if there is such an element. -/
def ofScalar : D Scalar → D Int × Option Error
  | [] => ([], none)
  | (k, none) :: es => ((k, none) :: (ofScalar es).1, (ofScalar es).2)
  | (k, some (.int64 bits)) :: es =>
    let i : Int :=
      if bits.val < 9223372036854775808 then bits.val
      else (bits.val : Int) - 18446744073709551616
    ((k, some i) :: (ofScalar es).1, (ofScalar es).2)
  | _ :: _ => ([], some "bson: value outside the int64 fragment")

/-- `bson.Unmarshal` into a `bson.D` with int64 values. -/
def int64Unmarshal (data : List Byte) : Option (D Int) × Option Error :=
  match goUnmarshal data with
  | (none, err) => (none, err)
  | (some es, err) =>
    match ofScalar es with
    | ([], none) => (none, err)
    | ([], some e) => (none, some e)
    | (d :: ds, none) => (some (d :: ds), err)
    | (d :: ds, some e) => (some (d :: ds), some e)

/-- The instance. -/
def int64Bson : Bson Int :=
  { Marshal := int64Marshal, Unmarshal := int64Unmarshal }

/-! ## The find command over a finite collection, and the paging loop

The executor is outside the repository. For the end-to-end property it is
the find command over a list of stored documents: keep the documents whose
sort-field value is at least `min` and below `max` (when present), order
them by the sort entry, drop `skip` documents, take `limit`. -/

/-- The value of field `f` in a stored document, nil when absent. -/
def fieldOf (doc : D V) (f : String) : Option V :=
  (doc.lookup f).join

/-- The sort key of a document: its value of field `f`, nil below every
other value. -/
def sortKey (f : String) (doc : D V) : WithBot V :=
  fieldOf doc f

/-- The documents `coll` in the order of a sort entry `{f: kind}`: by the
value of `f`, descending for `kind = -1` and ascending otherwise. -/
def inOrder [LinearOrder V] (f : String) (kind : Int) (coll : List (D V)) : List (D V) :=
  if kind = -1 then coll.insertionSort fun a b => sortKey f b ≤ sortKey f a
  else coll.insertionSort fun a b => sortKey f a ≤ sortKey f b

/-- The documents that the find command `cmd` returns from `coll`. -/
def find [LinearOrder V] (coll : List (D V)) (cmd : Cmd V) : List (D V) :=
  let ordered :=
    match cmd.get "sort" with
    | some (CmdVal.m f kind) =>
      let aboveMin := fun doc =>
        match cmd.get "min" with
        | some (CmdVal.d mn) => decide (sortKey f mn ≤ sortKey f doc)
        | _ => true
      let belowMax := fun doc =>
        match cmd.get "max" with
        | some (CmdVal.d mx) => decide (sortKey f doc < sortKey f mx)
        | _ => true
      inOrder f kind (coll.filter fun doc => aboveMin doc && belowMax doc)
    | _ => coll
  let skipped :=
    match cmd.get "skip" with
    | some (CmdVal.int n) => ordered.drop n.toNat
    | _ => ordered
  match cmd.get "limit" with
  | some (CmdVal.uint n) => skipped.take n
  | _ => skipped

/-- A database holding `coll`: replies are batches of stored documents, and
a raw document decodes to its fields. -/
def collectionDb [LinearOrder V] (coll : List (D V)) : Database V (List (D V)) (D V) :=
  { RunCommand := fun cmd => (find coll cmd, none),
    UnmarshalReply := fun reply => (some reply, none),
    UnmarshalDoc := fun raw => (fieldOf raw, none) }

/-- The paging loop of a client: `Cursor(token)` then `Decode`, feeding the
returned token back, until a call gives an error or an empty page (that
call is the last of the list). Each call is listed with its input token.
At most `fuel` calls. -/
def paginate : Nat → pagingQuery V Reply Raw → String →
    List (String × DecodeResult V Reply Raw)
  | 0, _, _ => []
  | fuel + 1, q, token =>
    let r := (q.Cursor token).Decode
    match r.err, r.result.getD [] with
    | none, _ :: _ => (token, r) :: paginate fuel r.q r.cursor
    | _, _ => [(token, r)]

/-- The builders of a paging loop over `coll`: configured with sort field
`f`, direction `kind` and limit `L`, no criteria and no projection, and
without a bound left on the side that the direction does not use. -/
def PagingState [LinearOrder V] (coll : List (D V)) (codec : Cursor V) (f : String)
    (kind : Int) (L : Nat) (q : pagingQuery V (List (D V)) (D V)) : Prop :=
  q.db = collectionDb coll ∧ q.cursor = codec ∧ q.criteria = none ∧ q.projection = none ∧
  q.sortField = f ∧ q.sortKind = kind ∧ q.limit = L ∧
  (kind = -1 → q.min = none) ∧ (kind ≠ -1 → q.max = none)

/-- The token `token` stands before the documents `R` of the ordered
collection: it is empty and `R` is everything, or it is the token of the
document just before `R`. -/
def Aligned [LinearOrder V] (coll : List (D V)) (codec : Cursor V) (f : String)
    (kind : Int) (token : String) (R : List (D V)) : Prop :=
  (token = "" ∧ R = inOrder f kind coll) ∨
  ∃ A d, inOrder f kind coll = A ++ d :: R ∧ token = (codec.Create [(f, fieldOf d f)]).1

/-- The five documents of the end-to-end scenario. -/
def createdAt5 : List (D Int) :=
  [[("created_at", some 1)], [("created_at", some 2)], [("created_at", some 3)],
   [("created_at", some 4)], [("created_at", some 5)]]

/-- The builder `New(db, "users")` of the end-to-end scenario, over the five
documents and with the codec `cursor{}`. -/
def users : pagingQuery Int (List (D Int)) (D Int) :=
  New (collectionDb createdAt5) (cursor int64Bson) "users"

/-- The builder after `Sort("-created_at")`. -/
def usersSorted : pagingQuery Int (List (D Int)) (D Int) :=
  (users.Sort "-created_at").getD users

/-- The builder after `Sort("-created_at").Limit(2)`. -/
def usersDesc : pagingQuery Int (List (D Int)) (D Int) :=
  usersSorted.Limit 2

/-- The token of `{created_at: 4}`. -/
def token4 : String := "GQAAABJjcmVhdGVkX2F0AAQAAAAAAAAAAA"

/-- The token of `{created_at: 2}`. -/
def token2 : String := "GQAAABJjcmVhdGVkX2F0AAIAAAAAAAAAAA"

/-- The token of `{created_at: 1}`. -/
def token1 : String := "GQAAABJjcmVhdGVkX2F0AAEAAAAAAAAAAA"

/-- The builders from `New` on which `Sort` has never been called: any
calls of the other methods of the interface. -/
inductive Unsorted : pagingQuery V Reply Raw → Prop where
  | new (db : Database V Reply Raw) (codec : Cursor V) (collection : String) :
      Unsorted (New db codec collection)
  | find {q} (c : Option V) : Unsorted q → Unsorted (q.Find c)
  | limit {q} (n : Nat) : Unsorted q → Unsorted (q.Limit n)
  | cursor {q} (t : String) : Unsorted q → Unsorted (q.Cursor t)
  | select {q} (p : Option V) : Unsorted q → Unsorted (q.Select p)
  | decode {q} : Unsorted q → Unsorted q.Decode.q
  | explain {q} : Unsorted q → Unsorted q.Explain

/-- The configuration of a builder: the collection and what the setters
set (criteria, projection, sort field and direction, limit, cursor token). -/
def pagingQuery.config (q : pagingQuery V Reply Raw) :
    String × Option V × Option V × String × Int × Nat × String :=
  (q.collection, q.criteria, q.projection, q.sortField, q.sortKind, q.limit, q.cursorValue)

/-- The token of the two-field document `{a: 1, b: -2}`. -/
def tokenAB : String := "GwAAABJhAAEAAAAAAAAAEmIA_v________8A"

/-- The builder of the scenario after the page bounded by `token4` and a
change of direction:
`New(db, "users").Sort("-created_at").Limit(2).Cursor(token4)`, `Decode`,
then `Sort("+created_at")`. -/
def usersTurned : pagingQuery Int (List (D Int)) (D Int) :=
  ((usersDesc.Cursor token4).Decode.q.Sort "+created_at").getD users

/-- The builder `New(db, "users").Sort("+created_at").Limit(2).Cursor(token4)`,
never used to build a command. -/
def usersAsc : pagingQuery Int (List (D Int)) (D Int) :=
  (((users.Sort "+created_at").getD users).Limit 2).Cursor token4

/-- A collection whose only document has a `created_at` beyond `int64`,
which the codec cannot encode. -/
def bigDocs : List (D Int) :=
  [[("created_at", some 9223372036854775808)]]

/-- The builder `New(db, "users").Sort("-created_at").Limit(2)` over
`bigDocs`. -/
def bigUsers : pagingQuery Int (List (D Int)) (D Int) :=
  (((New (collectionDb bigDocs) (cursor int64Bson) "users").Sort "-created_at").getD users).Limit 2

/-- A collection with distinct values of `created_at`, one of them null. -/
def nullDocs : List (D Int) :=
  [[("created_at", some 1)], [("created_at", none)]]

/-- The builder `New(db, "users").Sort("-created_at").Limit(2)` over
`nullDocs`. -/
def nullUsers : pagingQuery Int (List (D Int)) (D Int) :=
  (((New (collectionDb nullDocs) (cursor int64Bson) "users").Sort "-created_at").getD users).Limit 2

/-- A collection with distinct values of the field with the empty name. -/
def blankDocs : List (D Int) :=
  [[("", some 1)], [("", some 2)]]

/-- The builder `New(db, "users").Sort("-").Limit(1)` over `blankDocs`. -/
def blankUsers : pagingQuery Int (List (D Int)) (D Int) :=
  (((New (collectionDb blankDocs) (cursor int64Bson) "users").Sort "-").getD users).Limit 1

/-- The token that `Create` makes for `{"a\x00b": 1}`, a key with a NUL. -/
def tokenNUL : String := "EgAAABJhAGIAAQAAAAAAAAAA"

/-! ## Sort-spec parsing -/

theorem index0_cons (c : Char) (cs : List Char) : index0 (String.mk (c :: cs)) = some c := rfl

theorem slice1_cons (c : Char) (cs : List Char) :
    slice1 (String.mk (c :: cs)) = some (String.mk cs) := rfl

theorem sort_plus (q : pagingQuery V Reply Raw) (cs : List Char) :
    q.sort (String.mk ('+' :: cs)) = some { q with sortField := String.mk cs, sortKind := 1 } := by
  have h : String.mk ('+' :: cs) ≠ "" := by
    intro h; have := congrArg String.data h; simp at this
  simp [pagingQuery.sort, h, index0_cons, slice1_cons]

theorem sort_minus (q : pagingQuery V Reply Raw) (cs : List Char) :
    q.sort (String.mk ('-' :: cs)) = some { q with sortField := String.mk cs, sortKind := -1 } := by
  have h : String.mk ('-' :: cs) ≠ "" := by
    intro h; have := congrArg String.data h; simp at this
  simp [pagingQuery.sort, h, index0_cons, slice1_cons]

theorem sort_plain (q : pagingQuery V Reply Raw) (c : Char) (cs : List Char)
    (hp : c ≠ '+') (hm : c ≠ '-') :
    q.sort (String.mk (c :: cs)) =
      some { q with sortField := String.mk (c :: cs), sortKind := 1 } := by
  have h : String.mk (c :: cs) ≠ "" := by
    intro h; have := congrArg String.data h; simp at this
  simp [pagingQuery.sort, h, index0_cons, hp, hm]

theorem sort_empty (q : pagingQuery V Reply Raw) :
    q.sort "" = some { q with sortField := "_id", sortKind := -1 } := by
  have h := sort_minus q ['_', 'i', 'd']
  simpa [pagingQuery.sort] using h

theorem sort_frame (q q1 : pagingQuery V Reply Raw) (s : String) (h : q.sort s = some q1) :
    ∃ f k, q1 = { q with sortField := f, sortKind := k } ∧ (k = 1 ∨ k = -1) := by
  obtain ⟨cs⟩ := s
  cases cs with
  | nil =>
    have h0 : (String.mk []) = "" := rfl
    rw [h0, sort_empty] at h
    exact ⟨"_id", -1, (Option.some.inj h).symm, Or.inr rfl⟩
  | cons c cs =>
    by_cases hp : c = '+'
    · subst hp
      rw [sort_plus] at h
      exact ⟨String.mk cs, 1, (Option.some.inj h).symm, Or.inl rfl⟩
    · by_cases hm : c = '-'
      · subst hm
        rw [sort_minus] at h
        exact ⟨String.mk cs, -1, (Option.some.inj h).symm, Or.inr rfl⟩
      · rw [sort_plain q c cs hp hm] at h
        exact ⟨String.mk (c :: cs), 1, (Option.some.inj h).symm, Or.inl rfl⟩

/-! ## The command document -/

theorem getMinOrMax_snd (q : pagingQuery V Reply Raw) :
    q.getMinOrMax.2 = q.getMinOrMax.1.cursorError := by
  unfold pagingQuery.getMinOrMax
  simp only []
  split <;> simp_all

theorem prepareCommand_fst (q : pagingQuery V Reply Raw) :
    q.prepareCommand.1 = q.getMinOrMax.1 := by
  unfold pagingQuery.prepareCommand
  simp only []
  split <;> rfl

theorem prepareCommand_error (q : pagingQuery V Reply Raw) (e : Error)
    (h : q.getMinOrMax.2 = some e) : q.prepareCommand.2 = .error e := by
  unfold pagingQuery.prepareCommand
  simp only [h]

theorem prepareCommand_ok (q : pagingQuery V Reply Raw) (h : q.getMinOrMax.2 = none) :
    q.prepareCommand.2 = .ok (commandOf q.getMinOrMax.1) := by
  unfold pagingQuery.prepareCommand commandOf
  simp only [h]
  generalize q.getMinOrMax.1 = p
  cases hc : p.criteria <;> cases hp : p.projection <;> cases hn : p.min <;>
    cases hx : p.max <;> by_cases hs : p.sortField = "" <;> simp [hs]

theorem getMinOrMax_first (q : pagingQuery V Reply Raw) (h : q.cursorValue = "") :
    q.getMinOrMax =
      ({ q with cursorField := q.sortField, min := none, max := none, cursorError := none },
        none) := by
  simp [pagingQuery.getMinOrMax, h]

theorem getMinOrMax_desc (q : pagingQuery V Reply Raw) (h : q.cursorValue ≠ "")
    (hk : q.sortKind = -1) :
    q.getMinOrMax =
      ({ q with cursorField := q.sortField, max := (q.cursor.Parse q.cursorValue).1,
                cursorError := (q.cursor.Parse q.cursorValue).2 },
        (q.cursor.Parse q.cursorValue).2) := by
  unfold pagingQuery.getMinOrMax
  simp only [h, hk, ne_eq, not_false_eq_true, if_true]
  cases (q.cursor.Parse q.cursorValue).2 <;> rfl

theorem getMinOrMax_asc (q : pagingQuery V Reply Raw) (h : q.cursorValue ≠ "")
    (hk : q.sortKind ≠ -1) :
    q.getMinOrMax =
      ({ q with cursorField := q.sortField, min := (q.cursor.Parse q.cursorValue).1,
                cursorError := (q.cursor.Parse q.cursorValue).2 },
        (q.cursor.Parse q.cursorValue).2) := by
  unfold pagingQuery.getMinOrMax
  simp only [h, hk, ne_eq, not_false_eq_true, if_true, if_false]
  cases (q.cursor.Parse q.cursorValue).2 <;> rfl

theorem Fresh.bounds {q : pagingQuery V Reply Raw} (h : Fresh q) :
    q.min = none ∧ q.max = none := by
  induction h with
  | new => exact ⟨rfl, rfl⟩
  | sort s _ hs ih =>
    obtain ⟨f, k, rfl, _⟩ := sort_frame _ _ s hs
    exact ih
  | find _ _ ih => exact ih
  | limit _ _ ih => exact ih
  | cursor _ _ ih => exact ih
  | select _ _ ih => exact ih

/-- C1: on a builder fresh from `New` (configured by any setters), a
non-empty cursor token that `Parse` decodes to a document `d` gives, when
sorting descending, a command with `max = d` and neither `min` nor `skip`,
and when sorting ascending a command with `min = d`, `skip = 1` and no
`max`. -/
theorem prepareCommand_rangeBound (q : pagingQuery V Reply Raw) (hq : Fresh q)
    (t : String) (d : D V) (ht : t ≠ "") (hparse : q.cursor.Parse t = (some d, none)) :
    ∃ cmd, (q.Cursor t).prepareCommand.2 = .ok cmd ∧
      (q.sortKind = -1 →
        ("max", CmdVal.d d) ∈ cmd ∧ (∀ v, ("min", v) ∉ cmd) ∧ (∀ v, ("skip", v) ∉ cmd)) ∧
      (q.sortKind = 1 →
        ("min", CmdVal.d d) ∈ cmd ∧ ("skip", CmdVal.int 1) ∈ cmd ∧ (∀ v, ("max", v) ∉ cmd)) := by
  obtain ⟨hmin, hmax⟩ := Fresh.bounds hq
  have hcv : (q.Cursor t).cursorValue ≠ "" := ht
  have hpc : (q.Cursor t).cursor.Parse (q.Cursor t).cursorValue = (some d, none) := hparse
  by_cases hk : q.sortKind = -1
  · have hg := getMinOrMax_desc (q.Cursor t) hcv hk
    rw [hpc] at hg
    refine ⟨_, prepareCommand_ok _ (by rw [hg]), ?_, ?_⟩
    · intro _
      rw [hg]
      cases hc : q.criteria <;> cases hp : q.projection <;>
        by_cases hs : q.sortField = "" <;>
        simp [commandOf, pagingQuery.Cursor, hmin, hc, hp, hs]
    · intro h1; rw [hk] at h1; exact absurd h1 (by decide)
  · have hg := getMinOrMax_asc (q.Cursor t) hcv hk
    rw [hpc] at hg
    refine ⟨_, prepareCommand_ok _ (by rw [hg]), ?_, ?_⟩
    · intro h1; exact absurd h1 hk
    · intro _
      rw [hg]
      cases hc : q.criteria <;> cases hp : q.projection <;>
        by_cases hs : q.sortField = "" <;>
        simp [commandOf, pagingQuery.Cursor, hmax, hc, hp, hs]

/-! ## Decode -/

theorem getMinOrMax_frame (q : pagingQuery V Reply Raw) :
    q.getMinOrMax.1.db = q.db ∧ q.getMinOrMax.1.collection = q.collection ∧
    q.getMinOrMax.1.criteria = q.criteria ∧ q.getMinOrMax.1.projection = q.projection ∧
    q.getMinOrMax.1.sortKind = q.sortKind ∧ q.getMinOrMax.1.sortField = q.sortField ∧
    q.getMinOrMax.1.limit = q.limit ∧ q.getMinOrMax.1.cursorValue = q.cursorValue ∧
    q.getMinOrMax.1.cursor = q.cursor ∧ q.getMinOrMax.1.cursorField = q.sortField := by
  by_cases h : q.cursorValue = ""
  · rw [getMinOrMax_first q h]; simp
  · by_cases hk : q.sortKind = -1
    · rw [getMinOrMax_desc q h hk]; simp
    · rw [getMinOrMax_asc q h hk]; simp

theorem prepareCommand_eq_error (q : pagingQuery V Reply Raw) (e : Error)
    (h : q.getMinOrMax.2 = some e) : q.prepareCommand = (q.getMinOrMax.1, .error e) :=
  Prod.ext (prepareCommand_fst q) (prepareCommand_error q e h)

theorem prepareCommand_eq_ok (q : pagingQuery V Reply Raw) (h : q.getMinOrMax.2 = none) :
    q.prepareCommand = (q.getMinOrMax.1, .ok (commandOf q.getMinOrMax.1)) :=
  Prod.ext (prepareCommand_fst q) (prepareCommand_ok q h)

theorem prepareCommand_cases (q : pagingQuery V Reply Raw) (cmd : Cmd V)
    (h : q.prepareCommand.2 = .ok cmd) :
    q.prepareCommand = (q.getMinOrMax.1, .ok cmd) ∧ cmd = commandOf q.getMinOrMax.1 := by
  cases he : q.getMinOrMax.2 with
  | some e => rw [prepareCommand_error q e he] at h; cases h
  | none =>
    rw [prepareCommand_ok q he] at h
    cases h
    exact ⟨prepareCommand_eq_ok q he, rfl⟩

theorem Decode_q (q : pagingQuery V Reply Raw) : q.Decode.q = q.getMinOrMax.1 := by
  rw [← prepareCommand_fst]
  unfold pagingQuery.Decode
  split
  · next h => rw [h]
  · next h =>
    rw [h]
    split
    · rfl
    · split
      · rfl
      · split
        · split
          · split <;> rfl
          · rfl
        · rfl

/-- C2, as the code has it: when `Sort` has set a non-empty sort field `f`
and the executor returns a non-empty batch whose last document has value `v`
at `f`, `Decode` returns that batch, and the token and the error that
`cursor.Create` returns for the single-field document `{f: v}`: a nil error
and the token of `{f: v}` when `Create` succeeds. -/
theorem Decode_nonempty_batch (q : pagingQuery V Reply Raw) (f : String)
    (hf : q.sortField = f) (hne : f ≠ "") (cmd : Cmd V)
    (hcmd : q.prepareCommand.2 = .ok cmd) (reply : Reply) (batch : List Raw) (last : Raw)
    (hrun : q.db.RunCommand cmd = (reply, none))
    (hreply : q.db.UnmarshalReply reply = (some batch, none))
    (hlast : batch.getLast? = some last) (doc : M V) (v : Option V)
    (hdoc : q.db.UnmarshalDoc last = (doc, none)) (hv : doc f = v) :
    q.Decode.result = some batch ∧
    q.Decode.cursor = (q.cursor.Create [(f, v)]).1 ∧
    q.Decode.err = (q.cursor.Create [(f, v)]).2 ∧
    ((q.cursor.Create [(f, v)]).2 = none → q.Decode.err = none) := by
  obtain ⟨hpc, -⟩ := prepareCommand_cases q cmd hcmd
  obtain ⟨hdb, -, -, -, -, hsf, -, -, hcur, hcf⟩ := getMinOrMax_frame q
  have hcf' : q.getMinOrMax.1.cursorField = f := by rw [hcf, hf]
  subst hv
  have hres : q.Decode.result = some batch ∧
      q.Decode.cursor = (q.cursor.Create [(f, doc f)]).1 ∧
      q.Decode.err = (q.cursor.Create [(f, doc f)]).2 := by
    unfold pagingQuery.Decode
    simp [hpc, hdb, hrun, hreply, hlast, hdoc, hcur, hcf', hne]
  exact ⟨hres.1, hres.2.1, hres.2.2, fun h => hres.2.2.trans h⟩

/-- C3: whenever command construction succeeds and the executor returns an
empty batch, `Decode` returns the input cursor token `c` itself, empty or
not, and a nil error. -/
theorem Decode_empty_batch (q : pagingQuery V Reply Raw) (c : String) (cmd : Cmd V)
    (hcmd : (q.Cursor c).prepareCommand.2 = .ok cmd) (reply : Reply)
    (batch : Option (List Raw)) (hrun : q.db.RunCommand cmd = (reply, none))
    (hreply : q.db.UnmarshalReply reply = (batch, none)) (hempty : batch.getD [] = []) :
    (q.Cursor c).Decode.cursor = c ∧ (q.Cursor c).Decode.err = none ∧
      (q.Cursor c).Decode.result = batch := by
  obtain ⟨hpc, -⟩ := prepareCommand_cases (q.Cursor c) cmd hcmd
  obtain ⟨hdb, -, -, -, -, -, -, hcv, -, -⟩ := getMinOrMax_frame (q.Cursor c)
  have hdb' : (q.Cursor c).getMinOrMax.1.db = q.db := hdb
  have hcv' : (q.Cursor c).getMinOrMax.1.cursorValue = c := hcv
  unfold pagingQuery.Decode
  simp [hpc, hdb', hrun, hreply, hempty, hcv']

/-- C4: when the cursor token is non-empty and `Parse` fails on it with
error `e`, `Decode` returns `e` with a nil result and an empty next token,
and hands no command to the executor. -/
theorem Decode_parse_error (q : pagingQuery V Reply Raw) (e : Error)
    (hne : q.cursorValue ≠ "") (hparse : (q.cursor.Parse q.cursorValue).2 = some e) :
    q.Decode.err = some e ∧ q.Decode.result = none ∧ q.Decode.cursor = "" ∧
      q.Decode.sent = [] := by
  have hg : q.getMinOrMax.2 = some e := by
    by_cases hk : q.sortKind = -1
    · rw [getMinOrMax_desc q hne hk]; exact hparse
    · rw [getMinOrMax_asc q hne hk]; exact hparse
  have hpc := prepareCommand_eq_error q e hg
  unfold pagingQuery.Decode
  simp [hpc]

theorem Explain_eq (q : pagingQuery V Reply Raw) : q.Explain = q.getMinOrMax.1 :=
  prepareCommand_fst q

theorem Reachable.sortKind {q : pagingQuery V Reply Raw} (h : Reachable q) :
    q.sortField ≠ "" → q.sortKind = 1 ∨ q.sortKind = -1 := by
  induction h with
  | new => intro h; exact absurd rfl h
  | sort s _ hs _ =>
    obtain ⟨f, k, rfl, hk⟩ := sort_frame _ _ s hs
    exact fun _ => hk
  | find _ _ ih => exact ih
  | limit _ _ ih => exact ih
  | cursor _ _ ih => exact ih
  | select _ _ ih => exact ih
  | @decode q _ ih =>
    obtain ⟨-, -, -, -, hk, hf, -⟩ := getMinOrMax_frame q
    rw [Decode_q, hk, hf]; exact ih
  | @explain q _ ih =>
    obtain ⟨-, -, -, -, hk, hf, -⟩ := getMinOrMax_frame q
    rw [Explain_eq, hk, hf]; exact ih

/-- C7: a command that `prepareCommand` builds starts with `find` (the
collection name), `limit`, `batchSize` (the same value as `limit`) and
`singleBatch = true`, in that order; it has a `filter` entry exactly when
the criteria are set, holding them; a `projection` entry exactly when the
projection is set, holding it; and a `sort` entry exactly when the sort
field is non-empty, the single-field map from the sort field to the sort
kind, which is 1 or -1. -/
theorem prepareCommand_shape (q : pagingQuery V Reply Raw) (hq : Reachable q) (cmd : Cmd V)
    (h : q.prepareCommand.2 = .ok cmd) :
    cmd.take 4 = [("find", CmdVal.str q.collection), ("limit", CmdVal.uint q.limit),
        ("batchSize", CmdVal.uint q.limit), ("singleBatch", CmdVal.bool true)] ∧
    (∀ v, ("filter", v) ∈ cmd ↔ ∃ c, q.criteria = some c ∧ v = CmdVal.any c) ∧
    (∀ v, ("projection", v) ∈ cmd ↔ ∃ p, q.projection = some p ∧ v = CmdVal.any p) ∧
    (∀ v, ("sort", v) ∈ cmd ↔ q.sortField ≠ "" ∧ v = CmdVal.m q.sortField q.sortKind) ∧
    (q.sortField ≠ "" → q.sortKind = 1 ∨ q.sortKind = -1) := by
  obtain ⟨-, rfl⟩ := prepareCommand_cases q cmd h
  obtain ⟨-, hcoll, hcrit, hproj, hk, hf, hlim, -⟩ := getMinOrMax_frame q
  refine ⟨?_, ?_, ?_, ?_, Reachable.sortKind hq⟩
  · simp [commandOf, hcoll, hlim]
  · intro v
    cases hc : q.criteria <;> cases hp : q.getMinOrMax.1.projection <;>
      cases hn : q.getMinOrMax.1.min <;> cases hx : q.getMinOrMax.1.max <;>
      by_cases hs : q.getMinOrMax.1.sortField = "" <;>
      simp [commandOf, hcrit, hc, hp, hn, hx, hs, eq_comm]
  · intro v
    cases hc : q.getMinOrMax.1.criteria <;> cases hp : q.projection <;>
      cases hn : q.getMinOrMax.1.min <;> cases hx : q.getMinOrMax.1.max <;>
      by_cases hs : q.getMinOrMax.1.sortField = "" <;>
      simp [commandOf, hproj, hc, hp, hn, hx, hs, eq_comm]
  · intro v
    cases hc : q.getMinOrMax.1.criteria <;> cases hp : q.getMinOrMax.1.projection <;>
      cases hn : q.getMinOrMax.1.min <;> cases hx : q.getMinOrMax.1.max <;>
      by_cases hs : q.sortField = "" <;>
      simp [commandOf, hf, hk, hc, hp, hn, hx, hs, eq_comm]

/-- C6: `Sort("")` sets the sort field to `_id`, descending (-1); for every
string `s`, `Sort("-" ++ s)` sets the field to `s`, descending (-1), and
`Sort("+" ++ s)` sets the field to `s`, ascending (1). -/
theorem Sort_parsing (q : pagingQuery V Reply Raw) (s : String) :
    q.Sort "" = some { q with sortField := "_id", sortKind := -1 } ∧
    q.Sort ("-" ++ s) = some { q with sortField := s, sortKind := -1 } ∧
    q.Sort ("+" ++ s) = some { q with sortField := s, sortKind := 1 } :=
  ⟨sort_empty q, sort_minus q s.data, sort_plus q s.data⟩

/-- C10, as the code has it: for a non-empty string `s` whose first
character is neither `+` nor `-`, `Sort(s)` sets the sort field to `s` and
the direction to ascending (1). -/
theorem Sort_unsigned (q : pagingQuery V Reply Raw) (s : String) (c : Char)
    (hc : index0 s = some c) (hp : c ≠ '+') (hm : c ≠ '-') :
    q.Sort s = some { q with sortField := s, sortKind := 1 } := by
  obtain ⟨cs⟩ := s
  cases cs with
  | nil => cases hc
  | cons c1 cs =>
    cases hc
    exact sort_plain q c cs hp hm

/-! ## The cursor codec -/

theorem decodeMap_encodeChar : ∀ n, n < 64 → decodeMap (encodeChar n) = some n := by
  decide

theorem sextetsOf_lt (data : List Byte) : ∀ n ∈ sextetsOf data, n < 64 := by
  induction data using sextetsOf.induct with
  | case1 b0 b1 b2 rest ih =>
    intro n hn
    simp only [sextetsOf, List.mem_cons] at hn
    rcases hn with h | h | h | h | h
    · omega
    · omega
    · omega
    · omega
    · exact ih n h
  | case2 b0 b1 =>
    intro n hn
    simp only [sextetsOf, List.mem_cons, List.mem_singleton, List.not_mem_nil, or_false] at hn
    omega
  | case3 b0 =>
    intro n hn
    simp only [sextetsOf, List.mem_cons, List.mem_singleton, List.not_mem_nil, or_false] at hn
    omega
  | case4 => intro n hn; simp [sextetsOf] at hn

theorem readSextets_map_encodeChar (l : List Nat) (h : ∀ n ∈ l, n < 64) :
    readSextets (l.map encodeChar) = some l := by
  induction l with
  | nil => rfl
  | cons n l ih =>
    have hn := decodeMap_encodeChar n (h n (List.mem_cons_self n l))
    have hl := ih fun m hm => h m (List.mem_cons_of_mem n hm)
    simp [readSextets, hn, hl]

theorem bytesOf_sextetsOf (data : List Byte) : bytesOf (sextetsOf data) = some data := by
  induction data using sextetsOf.induct with
  | case1 b0 b1 b2 rest ih =>
    have h0 := b0.isLt
    have h1 := b1.isLt
    have h2 := b2.isLt
    simp only [sextetsOf, bytesOf, ih, Option.map_some']
    congr 2
    · apply Fin.ext; simp only [Fin.ofNat, Fin.val_mk]; omega
    · congr 1
      · apply Fin.ext; simp only [Fin.ofNat, Fin.val_mk]; omega
      · congr 1
        apply Fin.ext; simp only [Fin.ofNat, Fin.val_mk]; omega
  | case2 b0 b1 =>
    have h0 := b0.isLt
    have h1 := b1.isLt
    simp only [sextetsOf, bytesOf]
    congr 2
    · apply Fin.ext; simp only [Fin.ofNat, Fin.val_mk]; omega
    · congr 1
      apply Fin.ext; simp only [Fin.ofNat, Fin.val_mk]; omega
  | case3 b0 =>
    have h0 := b0.isLt
    simp only [sextetsOf, bytesOf]
    congr 2
    apply Fin.ext; simp only [Fin.ofNat, Fin.val_mk]; omega
  | case4 => rfl

theorem DecodeString_EncodeToString (data : List Byte) :
    DecodeString (EncodeToString data) = .ok data := by
  simp [DecodeString, EncodeToString, readSextets_map_encodeChar _ (sextetsOf_lt data),
    bytesOf_sextetsOf]

/-- The codec reads back what it writes wherever package bson does:
when `Marshal` succeeds on `{f: v}` and `Unmarshal` reads the bytes back,
`cursor.Create` on `{f: v}` gives a token that `cursor.Parse` decodes to
`{f: v}`. -/
theorem cursor_roundtrip (bson : Bson V) (f : String) (v : Option V) (data : List Byte)
    (hm : bson.Marshal [(f, v)] = (data, none))
    (hu : bson.Unmarshal data = (some [(f, v)], none)) :
    ∃ t, (cursor bson).Create [(f, v)] = (t, none) ∧
      (cursor bson).Parse t = (some [(f, v)], none) := by
  refine ⟨EncodeToString data, ?_, ?_⟩
  · simp [cursor, cursor.Create, hm]
  · simp [cursor, cursor.Parse, DecodeString_EncodeToString, hu]

/-! ## Package bson on scalar values: what is written is read back -/

theorem leBytes_length (n x : Nat) : (leBytes n x).length = n := by
  induction n generalizing x with
  | zero => rfl
  | succ n ih => simp [leBytes, ih]

theorem leNat_leBytes (n x : Nat) : leNat (leBytes n x) = x % 256 ^ n := by
  induction n generalizing x with
  | zero => simp [leBytes, leNat, Nat.mod_one]
  | succ n ih =>
    simp only [leBytes, leNat, ih, Fin.ofNat, Nat.mod_mod]
    rw [pow_succ', Nat.mod_mul]

theorem Char.toNat_lt (c : Char) : c.toNat < 1114112 := by
  have h := c.valid
  simp only [UInt32.isValidChar, Nat.isValidChar] at h
  have : c.toNat = c.val.toNat := rfl
  omega

theorem readChar_utf8Char (c : Char) (rest : List Byte) :
    readChar (utf8Char c ++ rest) = some (c, rest) := by
  have hlt := Char.toNat_lt c
  unfold utf8Char
  simp only []
  split
  · next h =>
    have e : c.toNat % 256 = c.toNat := by omega
    simp [readChar, Fin.ofNat, e, h]
  · split
    · next h1 h2 =>
      have e0 : (192 + c.toNat / 64) % 256 = 192 + c.toNat / 64 := by omega
      have e1 : (128 + c.toNat % 64) % 256 = 128 + c.toNat % 64 := by omega
      have hn : (192 + c.toNat / 64 - 192) * 64 + (128 + c.toNat % 64 - 128) = c.toNat := by
        omega
      have a1 : ¬ (192 + c.toNat / 64 < 128) := by omega
      have a2 : ¬ (192 + c.toNat / 64 < 192) := by omega
      have a3 : 192 + c.toNat / 64 < 224 := by omega
      have a4 : c.toNat % 64 < 64 := by omega
      simp only [readChar, Fin.ofNat, e0, e1, a1, a2, a3, List.cons_append, List.nil_append,
        if_true, if_false]
      rw [if_pos (by omega), hn, Char.ofNat_toNat]
    · split
      · next h1 h2 h3 =>
        have e0 : (224 + c.toNat / 4096) % 256 = 224 + c.toNat / 4096 := by omega
        have e1 : (128 + c.toNat / 64 % 64) % 256 = 128 + c.toNat / 64 % 64 := by omega
        have e2 : (128 + c.toNat % 64) % 256 = 128 + c.toNat % 64 := by omega
        have hn : (224 + c.toNat / 4096 - 224) * 4096 + (128 + c.toNat / 64 % 64 - 128) * 64 +
            (128 + c.toNat % 64 - 128) = c.toNat := by omega
        have a1 : ¬ (224 + c.toNat / 4096 < 128) := by omega
        have a2 : ¬ (224 + c.toNat / 4096 < 192) := by omega
        have a3 : ¬ (224 + c.toNat / 4096 < 224) := by omega
        have a4 : 224 + c.toNat / 4096 < 240 := by omega
        have a5 : c.toNat / 64 % 64 < 64 := by omega
        have a6 : c.toNat % 64 < 64 := by omega
        simp only [readChar, Fin.ofNat, e0, e1, e2, a1, a2, a3, a4, List.cons_append,
          List.nil_append, if_true, if_false]
        rw [if_pos (by omega), hn, Char.ofNat_toNat]
      · next h1 h2 h3 =>
        have e0 : (240 + c.toNat / 262144) % 256 = 240 + c.toNat / 262144 := by omega
        have e1 : (128 + c.toNat / 4096 % 64) % 256 = 128 + c.toNat / 4096 % 64 := by omega
        have e2 : (128 + c.toNat / 64 % 64) % 256 = 128 + c.toNat / 64 % 64 := by omega
        have e3 : (128 + c.toNat % 64) % 256 = 128 + c.toNat % 64 := by omega
        have hn : (240 + c.toNat / 262144 - 240) * 262144 +
            (128 + c.toNat / 4096 % 64 - 128) * 4096 +
            (128 + c.toNat / 64 % 64 - 128) * 64 + (128 + c.toNat % 64 - 128) = c.toNat := by
          omega
        have a1 : ¬ (240 + c.toNat / 262144 < 128) := by omega
        have a2 : ¬ (240 + c.toNat / 262144 < 192) := by omega
        have a3 : ¬ (240 + c.toNat / 262144 < 224) := by omega
        have a4 : ¬ (240 + c.toNat / 262144 < 240) := by omega
        have a5 : 240 + c.toNat / 262144 < 248 := by omega
        have a6 : c.toNat / 4096 % 64 < 64 := by omega
        have a7 : c.toNat / 64 % 64 < 64 := by omega
        have a8 : c.toNat % 64 < 64 := by omega
        simp only [readChar, Fin.ofNat, e0, e1, e2, e3, a1, a2, a3, a4, a5, List.cons_append,
          List.nil_append, if_true, if_false]
        rw [if_pos (by omega), hn, Char.ofNat_toNat]

theorem utf8Char_ne_nil (c : Char) : ∃ b tl, utf8Char c = b :: tl := by
  unfold utf8Char
  simp only []
  split
  · exact ⟨_, _, rfl⟩
  · split
    · exact ⟨_, _, rfl⟩
    · split <;> exact ⟨_, _, rfl⟩

theorem readChars_nil (fuel : Nat) : readChars fuel [] = some [] := by
  cases fuel <;> rfl

theorem readChars_utf8 (cs : List Char) : ∀ fuel, (cs.map utf8Char).flatten.length ≤ fuel →
    readChars fuel (cs.map utf8Char).flatten = some cs := by
  induction cs with
  | nil => intro fuel _; exact readChars_nil fuel
  | cons c cs ih =>
    intro fuel hfuel
    obtain ⟨b, tl, hb⟩ := utf8Char_ne_nil c
    have hread := readChar_utf8Char c (cs.map utf8Char).flatten
    simp only [List.map_cons, List.flatten_cons, List.length_append] at hfuel ⊢
    rw [hb] at hfuel hread
    rw [hb]
    cases fuel with
    | zero => simp at hfuel
    | succ fuel =>
      have hrest : (cs.map utf8Char).flatten.length ≤ fuel := by
        simp only [List.length_cons] at hfuel
        omega
      simp only [List.cons_append] at hread ⊢
      simp only [readChars, hread, ih fuel hrest, Option.map_some']

theorem fromUtf8_utf8 (s : String) : fromUtf8 (utf8 s) = some s := by
  unfold fromUtf8 utf8
  rw [readChars_utf8 s.data _ (Nat.le_refl _)]
  rfl

theorem utf8Char_ne_zero (c : Char) (hc : c ≠ Char.ofNat 0) : ∀ b ∈ utf8Char c, b.val ≠ 0 := by
  have hn : c.toNat ≠ 0 := by
    intro h
    apply hc
    rw [← Char.ofNat_toNat c, h]
  have hlt := Char.toNat_lt c
  unfold utf8Char
  simp only []
  split
  · intro b hb
    simp only [List.mem_singleton] at hb
    subst hb
    simp only [Fin.ofNat]
    omega
  · split
    · intro b hb
      simp only [List.mem_cons, List.mem_singleton, List.not_mem_nil, or_false] at hb
      rcases hb with rfl | rfl <;> simp only [Fin.ofNat] <;> omega
    · split
      · intro b hb
        simp only [List.mem_cons, List.mem_singleton, List.not_mem_nil, or_false] at hb
        rcases hb with rfl | rfl | rfl <;> simp only [Fin.ofNat] <;> omega
      · intro b hb
        simp only [List.mem_cons, List.mem_singleton, List.not_mem_nil, or_false] at hb
        rcases hb with rfl | rfl | rfl | rfl <;> simp only [Fin.ofNat] <;> omega

theorem utf8_ne_zero (s : String) (hs : Char.ofNat 0 ∉ s.data) : ∀ b ∈ utf8 s, b.val ≠ 0 := by
  intro b hb
  simp only [utf8, List.mem_flatten, List.mem_map] at hb
  obtain ⟨l, ⟨c, hc, rfl⟩, hbl⟩ := hb
  exact utf8Char_ne_zero c (fun h => hs (h ▸ hc)) b hbl

theorem readKey_append (kb rest : List Byte) (h : ∀ b ∈ kb, b.val ≠ 0) :
    readKey (kb ++ (0 : Byte) :: rest) = some (kb, rest) := by
  induction kb with
  | nil => simp [readKey]
  | cons b kb ih =>
    have hb : b.val ≠ 0 := h b (List.mem_cons_self b kb)
    have := ih fun x hx => h x (List.mem_cons_of_mem b hx)
    simp [readKey, hb, this]

theorem take_leBytes (n x : Nat) (rest : List Byte) :
    (leBytes n x ++ rest).take n = leBytes n x :=
  List.take_left' (leBytes_length n x)

theorem drop_leBytes (n x : Nat) (rest : List Byte) :
    (leBytes n x ++ rest).drop n = rest :=
  List.drop_left' (leBytes_length n x)

theorem readValue_payload (v : Scalar) (rest : List Byte)
    (hsize : v.payload.length < 4294967296) :
    readValue v.tag.val (v.payload ++ rest) = some (some v, rest) := by
  cases v with
  | double bits =>
    have ht : (Scalar.double bits).tag.val = 1 := rfl
    have hl : 8 ≤ (leBytes 8 bits.val ++ rest).length := by
      simp [leBytes_length]
    have hb : bits.val % 18446744073709551616 = bits.val := Nat.mod_eq_of_lt bits.isLt
    rw [ht]
    simp only [Scalar.payload]
    simp [readValue, leBytes_length, take_leBytes, drop_leBytes, leNat_leBytes, Fin.ofNat, hb]
  | str s =>
    have ht : (Scalar.str s).tag.val = 2 := rfl
    simp only [Scalar.payload, List.length_append, leBytes_length, List.length_singleton]
      at hsize
    have hn : ((utf8 s).length + 1) % 256 ^ 4 = (utf8 s).length + 1 :=
      Nat.mod_eq_of_lt (by norm_num; omega)
    have e1 : leBytes 4 ((utf8 s).length + 1) ++ utf8 s ++ [0] ++ rest =
        leBytes 4 ((utf8 s).length + 1) ++ (utf8 s ++ (0 : Byte) :: rest) := by simp
    have hl : 4 ≤ (leBytes 4 ((utf8 s).length + 1) ++ (utf8 s ++ (0 : Byte) :: rest)).length := by
      simp [leBytes_length]
    have htake : (utf8 s ++ (0 : Byte) :: rest).take (utf8 s).length = utf8 s :=
      List.take_left' rfl
    have hdrop : (utf8 s ++ (0 : Byte) :: rest).drop (utf8 s).length = (0 : Byte) :: rest :=
      List.drop_left' rfl
    have hdrop1 : (utf8 s ++ (0 : Byte) :: rest).drop ((utf8 s).length + 1) = rest := by
      rw [← List.drop_drop, hdrop]; rfl
    have hlen : (utf8 s).length + 1 ≤ (utf8 s ++ (0 : Byte) :: rest).length := by
      simp
    rw [ht]
    simp only [Scalar.payload]
    rw [e1]
    simp only [readValue, hl, take_leBytes, drop_leBytes, leNat_leBytes, hn,
      Nat.add_sub_cancel, htake, hdrop, hdrop1, fromUtf8_utf8, hlen]
    simp
  | objectID id =>
    have ht : (Scalar.objectID id).tag.val = 7 := rfl
    have hl : 12 ≤ (leBytes 12 id.val ++ rest).length := by
      simp [leBytes_length]
    have hb : id.val % 79228162514264337593543950336 = id.val := Nat.mod_eq_of_lt id.isLt
    rw [ht]
    simp only [Scalar.payload]
    simp [readValue, leBytes_length, take_leBytes, drop_leBytes, leNat_leBytes, Fin.ofNat, hb]
  | bool b =>
    have ht : (Scalar.bool b).tag.val = 8 := rfl
    rw [ht]
    cases b <;> simp [Scalar.payload, readValue]
  | int32 bits =>
    have ht : (Scalar.int32 bits).tag.val = 16 := rfl
    have hl : 4 ≤ (leBytes 4 bits.val ++ rest).length := by
      simp [leBytes_length]
    have hb : bits.val % 4294967296 = bits.val := Nat.mod_eq_of_lt bits.isLt
    rw [ht]
    simp only [Scalar.payload]
    simp [readValue, leBytes_length, take_leBytes, drop_leBytes, leNat_leBytes, Fin.ofNat, hb]
  | int64 bits =>
    have ht : (Scalar.int64 bits).tag.val = 18 := rfl
    have hl : 8 ≤ (leBytes 8 bits.val ++ rest).length := by
      simp [leBytes_length]
    have hb : bits.val % 18446744073709551616 = bits.val := Nat.mod_eq_of_lt bits.isLt
    rw [ht]
    simp only [Scalar.payload]
    simp [readValue, leBytes_length, take_leBytes, drop_leBytes, leNat_leBytes, Fin.ofNat, hb]

theorem Scalar.tag_ne_zero (v : Scalar) : v.tag.val ≠ 0 := by
  cases v <;> simp only [Scalar.tag] <;> decide

theorem goMarshal_single (f : String) (v : Scalar) :
    goMarshal [(f, some v)] =
      (leBytes 4 ((v.tag :: (utf8 f ++ (0 : Byte) :: v.payload)).length + 5) ++
        (v.tag :: (utf8 f ++ (0 : Byte) :: (v.payload ++ [0]))), none) := by
  simp [goMarshal, elemsBytes, elemBytes]

theorem readElems_single (f : String) (v : Scalar) (fuel : Nat)
    (hf : Char.ofNat 0 ∉ f.data) (hsize : v.payload.length < 4294967296) :
    readElems (fuel + 2) (v.tag :: (utf8 f ++ (0 : Byte) :: (v.payload ++ [0]))) =
      ([(f, some v)], none) := by
  have hk := readKey_append (utf8 f) (v.payload ++ [0]) (utf8_ne_zero f hf)
  have hv := readValue_payload v [0] hsize
  simp [readElems, Scalar.tag_ne_zero, hk, fromUtf8_utf8, hv]

/-- What `bson.Marshal` writes for a single-field document with a key
without NUL and a non-nil scalar value, `bson.Unmarshal` reads back, as
long as the document is shorter than 2^31 bytes. -/
theorem goUnmarshal_goMarshal (f : String) (v : Scalar) (hf : Char.ofNat 0 ∉ f.data)
    (hsize : (goMarshal [(f, some v)]).1.length < 2147483648) :
    (goMarshal [(f, some v)]).2 = none ∧
      goUnmarshal (goMarshal [(f, some v)]).1 = (some [(f, some v)], none) := by
  rw [goMarshal_single] at hsize ⊢
  refine ⟨rfl, ?_⟩
  simp only [List.length_append, leBytes_length, List.length_cons, List.length_nil] at hsize
  have hpay : v.payload.length < 4294967296 := by omega
  have hlen : (leBytes 4 ((v.tag :: (utf8 f ++ (0 : Byte) :: v.payload)).length + 5) ++
      (v.tag :: (utf8 f ++ (0 : Byte) :: (v.payload ++ [0])))).length =
      (v.tag :: (utf8 f ++ (0 : Byte) :: v.payload)).length + 5 := by
    simp only [List.length_append, leBytes_length, List.length_cons, List.length_nil]
    omega
  have hmod : ((v.tag :: (utf8 f ++ (0 : Byte) :: v.payload)).length + 5) % 256 ^ 4 =
      (v.tag :: (utf8 f ++ (0 : Byte) :: v.payload)).length + 5 := by
    apply Nat.mod_eq_of_lt
    simp only [List.length_append, List.length_cons]
    norm_num
    omega
  have hfuel : (v.tag :: (utf8 f ++ (0 : Byte) :: v.payload)).length + 5 =
      ((utf8 f).length + v.payload.length + 5) + 2 := by
    simp only [List.length_append, List.length_cons]
    omega
  unfold goUnmarshal
  simp only [hlen, take_leBytes, drop_leBytes, leNat_leBytes, hmod]
  rw [hfuel, readElems_single f v _ hf hpay]
  simp


/-- C5, as the code has it: for every field name `f` without a NUL
character and every non-nil scalar value `v` (float64, string, ObjectID,
bool, int32, int64) whose document `{f: v}` is encoded in fewer than 2^31
bytes, `cursor.Create` on `{f: v}` succeeds with a token `t`, and
`cursor.Parse(t)` succeeds and returns exactly `{f: v}`. -/
theorem cursor_roundtrip_scalar (f : String) (v : Scalar) (hf : Char.ofNat 0 ∉ f.data)
    (hsize : (goBson.Marshal [(f, some v)]).1.length < 2147483648) :
    ∃ t, (cursor goBson).Create [(f, some v)] = (t, none) ∧
      (cursor goBson).Parse t = (some [(f, some v)], none) := by
  obtain ⟨hm, hu⟩ := goUnmarshal_goMarshal f v hf hsize
  exact cursor_roundtrip goBson f (some v) (goMarshal [(f, some v)]).1 (Prod.ext rfl hm) hu

theorem cursor_roundtrip_scalar_witness :
    Char.ofNat 0 ∉ "_id".data ∧
    ∃ t, (cursor goBson).Create [("_id", some (Scalar.objectID 98765432109876543210))] =
        (t, none) ∧
      (cursor goBson).Parse t = (some [("_id", some (Scalar.objectID 98765432109876543210))], none) :=
  ⟨by decide, cursor_roundtrip_scalar "_id" (Scalar.objectID 98765432109876543210) (by decide)
    (by decide)⟩

/-- C5 fails as stated: for the field name `"a\x00b"`, which has a NUL,
`Create` succeeds on `{f: 1}` with the token `tokenNUL`, and `Parse` rejects
that token. -/
theorem Create_key_with_NUL :
    (cursor goBson).Create [("a\x00b", some (Scalar.int64 1))] = (tokenNUL, none) ∧
    ((cursor goBson).Parse tokenNUL).2 = some invalidDocument ∧
    ((cursor goBson).Parse tokenNUL).1 ≠ some [("a\x00b", some (Scalar.int64 1))] :=
  ⟨rfl, rfl, by decide⟩

theorem decodeMap_eq_none (c : Char) : decodeMap c = none ↔ c ∉ encodeURL := by
  unfold decodeMap
  have hlen : encodeURL.length = 64 := rfl
  constructor
  · intro h hc
    have := List.indexOf_lt_length.mpr hc
    rw [hlen] at this
    simp [this] at h
  · intro h
    have := List.indexOf_eq_length.mpr h
    simp [this, hlen]

theorem readSextets_eq_none (cs : List Char) :
    readSextets cs = none ↔ ∃ c ∈ cs, c ∉ encodeURL ∧ c ≠ '\n' ∧ c ≠ '\r' := by
  induction cs with
  | nil => simp [readSextets]
  | cons c cs ih =>
    cases hc : decodeMap c with
    | some v =>
      have hmem : ¬ c ∉ encodeURL := fun h => by
        rw [(decodeMap_eq_none c).mpr h] at hc; cases hc
      simp only [readSextets, hc, Option.map_eq_none', ih, List.mem_cons, exists_eq_or_imp,
        hmem, false_and, false_or]
    | none =>
      have hmem : c ∉ encodeURL := (decodeMap_eq_none c).mp hc
      by_cases hnl : c = '\n' ∨ c = '\r'
      · have : ¬ (c ≠ '\n' ∧ c ≠ '\r') := by
          rcases hnl with h | h <;> simp [h]
        simp only [readSextets, hc, hnl, if_true, ih, List.mem_cons, exists_eq_or_imp, this,
          and_false, false_or]
      · have : c ≠ '\n' ∧ c ≠ '\r' := by
          constructor <;> intro h <;> exact hnl (by simp [h])
        have hgoal : ∃ a ∈ c :: cs, a ∉ encodeURL ∧ a ≠ '\n' ∧ a ≠ '\r' :=
          ⟨c, List.mem_cons_self c cs, hmem, this⟩
        simp only [readSextets, hc, if_neg hnl, hgoal]

theorem bytesOf_eq_none (l : List Nat) : bytesOf l = none ↔ l.length % 4 = 1 := by
  induction l using bytesOf.induct with
  | case1 s0 s1 s2 s3 rest ih =>
    simp only [bytesOf, Option.map_eq_none', ih, List.length_cons]
    omega
  | case2 => simp [bytesOf]
  | case3 => simp [bytesOf]
  | case4 => simp [bytesOf]
  | case5 => simp [bytesOf]

theorem readSextets_length (cs : List Char) (l : List Nat) (h : readSextets cs = some l) :
    l.length = (cs.filter fun c => decide (c ∈ encodeURL)).length := by
  induction cs generalizing l with
  | nil => simp [readSextets] at h; subst h; rfl
  | cons c cs ih =>
    cases hc : decodeMap c with
    | some v =>
      have hmem : c ∈ encodeURL := by
        by_contra hn
        rw [(decodeMap_eq_none c).mpr hn] at hc; cases hc
      simp only [readSextets, hc, Option.map_eq_some'] at h
      obtain ⟨l1, hl1, rfl⟩ := h
      simp [List.filter_cons, hmem, ih l1 hl1]
    | none =>
      have hmem : c ∉ encodeURL := (decodeMap_eq_none c).mp hc
      simp only [readSextets, hc] at h
      split at h
      · simp [List.filter_cons, hmem, ih l h]
      · cases h

/-- The strings that `DecodeString` rejects: those with a character that is
neither in the alphabet nor `\r` or `\n`, and those whose number of alphabet
characters is 1 modulo 4. -/
theorem DecodeString_error_iff (s : String) :
    DecodeString s = .error corruptInput ↔
      (∃ c ∈ s.data, c ∉ encodeURL ∧ c ≠ '\n' ∧ c ≠ '\r') ∨
      (s.data.filter fun c => decide (c ∈ encodeURL)).length % 4 = 1 := by
  unfold DecodeString
  cases hr : readSextets s.data with
  | none =>
    have h := (readSextets_eq_none _).mp hr
    simp only [Option.bind, h, true_or]
  | some l =>
    have hno : ¬ ∃ c ∈ s.data, c ∉ encodeURL ∧ c ≠ '\n' ∧ c ≠ '\r' := by
      intro h
      rw [(readSextets_eq_none _).mpr h] at hr; cases hr
    rw [← readSextets_length _ _ hr]
    cases hb : bytesOf l with
    | none =>
      have h := (bytesOf_eq_none l).mp hb
      simp only [Option.bind, hb, h, or_true]
    | some data =>
      have h : ¬ l.length % 4 = 1 := fun h => by
        rw [(bytesOf_eq_none l).mpr h] at hb; cases hb
      simp only [Option.bind, hb, hno, h, or_false, reduceCtorEq]

theorem DecodeString_cases (s : String) :
    DecodeString s = .error corruptInput ∨ ∃ data, DecodeString s = .ok data := by
  unfold DecodeString
  cases (readSextets s.data).bind bytesOf with
  | none => exact Or.inl rfl
  | some data => exact Or.inr ⟨data, rfl⟩

theorem encodeChar_mem (n : Nat) : encodeChar n ∈ encodeURL := by
  unfold encodeChar
  rw [List.getD_eq_getElem?_getD]
  cases h : encodeURL[n]? with
  | none => decide
  | some c => exact List.getElem?_mem h

theorem Create_chars (bson : Bson V) (d : D V) :
    ∀ c ∈ ((cursor bson).Create d).1.data, c ∈ encodeURL := by
  intro c hc
  simp only [cursor, cursor.Create, EncodeToString, List.mem_map] at hc
  obtain ⟨n, -, rfl⟩ := hc
  exact encodeChar_mem n

/-- C9, as the code has it: `cursor.Parse(s)` returns an error exactly when
`s` is not valid unpadded URL-safe base64 (a character outside the alphabet
other than `\r` and `\n`, or a count of alphabet characters that is 1
modulo 4), and then the document is nil, or when `bson.Unmarshal` rejects
the decoded bytes; a string whose bytes `Unmarshal` reads as a document is
parsed to that document, whatever the number of its fields. -/
theorem Parse_error_iff (bson : Bson V) (s : String) :
    (((cursor bson).Parse s).2 ≠ none ↔
      ((∃ c ∈ s.data, c ∉ encodeURL ∧ c ≠ '\n' ∧ c ≠ '\r') ∨
        (s.data.filter fun c => decide (c ∈ encodeURL)).length % 4 = 1) ∨
      ∃ data, DecodeString s = .ok data ∧ (bson.Unmarshal data).2 ≠ none) ∧
    (((∃ c ∈ s.data, c ∉ encodeURL ∧ c ≠ '\n' ∧ c ≠ '\r') ∨
        (s.data.filter fun c => decide (c ∈ encodeURL)).length % 4 = 1) →
      (cursor bson).Parse s = (none, some corruptInput)) ∧
    (∀ data d, DecodeString s = .ok data → bson.Unmarshal data = (some d, none) →
      (cursor bson).Parse s = (some d, none)) := by
  rw [← DecodeString_error_iff]
  refine ⟨?_, ?_, ?_⟩
  · rcases DecodeString_cases s with h | ⟨data, h⟩
    · simp [cursor, cursor.Parse, h]
    · simp [cursor, cursor.Parse, h]
  · intro h
    simp [cursor, cursor.Parse, h]
  · intro data d h hu
    simp [cursor, cursor.Parse, h, hu]

/-- C9 fails as stated: the token of the two-field document `{a: 1, b: -2}`
is valid base64 whose bytes are a well-formed document with two fields, and
`Parse` returns that document with a nil error; and a token followed by a
newline, which no `Create` outputs, is parsed to a document too. -/
theorem Parse_accepts_non_Create_output :
    DecodeString "GwAAABJhAAEAAAAAAAAAEmIA_v________8A" =
        .ok [27, 0, 0, 0, 18, 97, 0, 1, 0, 0, 0, 0, 0, 0, 0,
             18, 98, 0, 254, 255, 255, 255, 255, 255, 255, 255, 0] ∧
      (cursor int64Bson).Parse "GwAAABJhAAEAAAAAAAAAEmIA_v________8A" =
        (some [("a", some 1), ("b", some (-2))], none) ∧
      (∀ (bson : Bson Int) (d : D Int),
        ((cursor bson).Create d).1 ≠ "GQAAABJjcmVhdGVkX2F0AAQAAAAAAAAAAA\n") ∧
      (cursor int64Bson).Parse "GQAAABJjcmVhdGVkX2F0AAQAAAAAAAAAAA\n" =
        (some [("created_at", some 4)], none) := by
  refine ⟨rfl, rfl, ?_, rfl⟩
  intro bson d h
  have hc := Create_chars bson d '\n' (by rw [h]; decide)
  revert hc
  decide


/-! ## Sorted lists with distinct keys -/

theorem map_eq_of_injOn {α K : Type} (k : α → K) : ∀ (l1 l2 : List α),
    (∀ a ∈ l1, ∀ b ∈ l2, k a = k b → a = b) → l1.map k = l2.map k → l1 = l2
  | [], [], _, _ => rfl
  | [], _ :: _, _, h => by simp at h
  | _ :: _, [], _, h => by simp at h
  | a :: l1, b :: l2, hinj, h => by
    simp only [List.map_cons, List.cons.injEq] at h
    have hab := hinj a (List.mem_cons_self a l1) b (List.mem_cons_self b l2) h.1
    have := map_eq_of_injOn k l1 l2
      (fun x hx y hy => hinj x (List.mem_cons_of_mem a hx) y (List.mem_cons_of_mem b hy)) h.2
    rw [hab, this]

section Keys

variable {α K : Type} [LinearOrder K] (k : α → K)

theorem sorted_key_unique {l1 l2 : List α} (hp : l1.Perm l2)
    (h1 : l1.Sorted fun a b => k a ≤ k b) (h2 : l2.Sorted fun a b => k a ≤ k b)
    (hn : (l1.map k).Nodup) : l1 = l2 := by
  have hk : l1.map k = l2.map k :=
    List.eq_of_perm_of_sorted (r := (· ≤ ·)) (hp.map k)
      (List.pairwise_map.mpr h1) (List.pairwise_map.mpr h2)
  refine map_eq_of_injOn k l1 l2 ?_ hk
  intro a ha b hb hab
  exact List.inj_on_of_nodup_map hn ha (hp.mem_iff.mpr hb) hab

theorem insertionSort_filter (l : List α) (p : α → Bool) (hn : (l.map k).Nodup) :
    (l.filter p).insertionSort (fun a b => k a ≤ k b) =
      (l.insertionSort fun a b => k a ≤ k b).filter p := by
  haveI : IsTotal α (fun a b => k a ≤ k b) := ⟨fun a b => le_total (k a) (k b)⟩
  haveI : IsTrans α (fun a b => k a ≤ k b) := ⟨fun a b c h1 h2 => le_trans h1 h2⟩
  refine sorted_key_unique k ?_ (List.sorted_insertionSort _ _)
    ((List.sorted_insertionSort _ l).filter p) ?_
  · exact (List.perm_insertionSort _ _).trans ((List.perm_insertionSort _ l).filter p).symm
  · have hperm := ((List.perm_insertionSort (fun a b => k a ≤ k b) (l.filter p)).map k)
    refine hperm.nodup_iff.mpr ?_
    exact hn.sublist ((List.filter_sublist l).map k)

theorem insertionSort_strict (l : List α) (hn : (l.map k).Nodup) :
    (l.insertionSort fun a b => k a ≤ k b).Pairwise fun a b => k a < k b := by
  haveI : IsTotal α (fun a b => k a ≤ k b) := ⟨fun a b => le_total (k a) (k b)⟩
  haveI : IsTrans α (fun a b => k a ≤ k b) := ⟨fun a b c h1 h2 => le_trans h1 h2⟩
  have hs : (l.insertionSort fun a b => k a ≤ k b).Pairwise fun a b => k a ≤ k b :=
    List.sorted_insertionSort _ l
  have hd : ((l.insertionSort fun a b => k a ≤ k b).map k).Nodup :=
    ((List.perm_insertionSort _ l).map k).nodup_iff.mpr hn
  have hd' := List.pairwise_map.mp hd
  exact (hs.and hd').imp fun h => lt_of_le_of_ne h.1 h.2

theorem filter_ge_of_strict (A R : List α) (d : α)
    (h : (A ++ d :: R).Pairwise fun a b => k a < k b) :
    (A ++ d :: R).filter (fun x => decide (k d ≤ k x)) = d :: R := by
  rw [List.pairwise_append] at h
  obtain ⟨-, hR, hA⟩ := h
  rw [List.pairwise_cons] at hR
  have h1 : A.filter (fun x => decide (k d ≤ k x)) = [] := by
    rw [List.filter_eq_nil_iff]
    intro a ha
    have := hA a ha d (List.mem_cons_self d R)
    simpa using this
  have h2 : R.filter (fun x => decide (k d ≤ k x)) = R := by
    rw [List.filter_eq_self]
    intro x hx
    simpa using le_of_lt (hR.1 x hx)
  rw [List.filter_append, h1, List.filter_cons]
  simp [h2]

theorem filter_gt_of_strict (A R : List α) (d : α)
    (h : (A ++ d :: R).Pairwise fun a b => k a < k b) :
    (A ++ d :: R).filter (fun x => decide (k d < k x)) = R := by
  rw [List.pairwise_append] at h
  obtain ⟨-, hR, hA⟩ := h
  rw [List.pairwise_cons] at hR
  have h1 : A.filter (fun x => decide (k d < k x)) = [] := by
    rw [List.filter_eq_nil_iff]
    intro a ha
    have := hA a ha d (List.mem_cons_self d R)
    simpa using le_of_lt this
  have h2 : R.filter (fun x => decide (k d < k x)) = R := by
    rw [List.filter_eq_self]
    intro x hx
    simpa using hR.1 x hx
  rw [List.filter_append, h1, List.filter_cons]
  simp [h2]

theorem insertionSort_filter_desc (l : List α) (p : α → Bool) (hn : (l.map k).Nodup) :
    (l.filter p).insertionSort (fun a b => k b ≤ k a) =
      (l.insertionSort fun a b => k b ≤ k a).filter p :=
  insertionSort_filter (K := Kᵒᵈ) (fun a => OrderDual.toDual (k a)) l p hn

theorem insertionSort_strict_desc (l : List α) (hn : (l.map k).Nodup) :
    (l.insertionSort fun a b => k b ≤ k a).Pairwise fun a b => k b < k a :=
  insertionSort_strict (K := Kᵒᵈ) (fun a => OrderDual.toDual (k a)) l hn

theorem filter_lt_of_strict_desc (A R : List α) (d : α)
    (h : (A ++ d :: R).Pairwise fun a b => k b < k a) :
    (A ++ d :: R).filter (fun x => decide (k x < k d)) = R :=
  filter_gt_of_strict (K := Kᵒᵈ) (fun a => OrderDual.toDual (k a)) A R d h

end Keys


/-! ## Paging through a collection -/

theorem sortKey_single (f : String) (v : Option V) : sortKey f [(f, v)] = v := by
  simp [sortKey, fieldOf, List.lookup]

theorem sortKey_fieldOf (f : String) (d : D V) : sortKey f [(f, fieldOf d f)] = sortKey f d :=
  sortKey_single f (fieldOf d f)

section Paging

variable [LinearOrder V]

theorem find_commandOf (coll : List (D V)) (q : pagingQuery V (List (D V)) (D V))
    (hc : q.criteria = none) (hp : q.projection = none) (hf : q.sortField ≠ "") :
    find coll (commandOf q) = List.take q.limit (
      (match q.min with
        | some _ => List.drop 1
        | none => id)
        (inOrder q.sortField q.sortKind
          (coll.filter fun doc =>
            (match q.min with
              | some mn => decide (sortKey q.sortField mn ≤ sortKey q.sortField doc)
              | none => true) &&
            (match q.max with
              | some mx => decide (sortKey q.sortField doc < sortKey q.sortField mx)
              | none => true)))) := by
  cases hn : q.min <;> cases hx : q.max <;>
    simp [find, commandOf, Cmd.get, List.lookup, hc, hp, hf, hn, hx]

theorem Decode_collectionDb (coll : List (D V)) (q q1 : pagingQuery V (List (D V)) (D V))
    (cmd : Cmd V) (hdb : q1.db = collectionDb coll) (hpc : q.prepareCommand = (q1, .ok cmd))
    (hf : q1.cursorField ≠ "") :
    q.Decode =
      { result := some (find coll cmd),
        cursor := match (find coll cmd).getLast? with
          | some last => (q1.cursor.Create [(q1.cursorField, fieldOf last q1.cursorField)]).1
          | none => q1.cursorValue,
        err := match (find coll cmd).getLast? with
          | some last => (q1.cursor.Create [(q1.cursorField, fieldOf last q1.cursorField)]).2
          | none => none,
        q := q1, sent := [cmd] } := by
  unfold pagingQuery.Decode
  simp only [hpc, hdb, collectionDb, Option.getD_some]
  cases (find coll cmd).getLast? <;> simp [hf]


theorem inOrder_perm (f : String) (kind : Int) (coll : List (D V)) :
    (inOrder f kind coll).Perm coll := by
  unfold inOrder
  split
  · exact List.perm_insertionSort _ coll
  · exact List.perm_insertionSort _ coll

theorem inOrder_filter_max (f : String) (coll A R : List (D V)) (d : D V)
    (hd : (coll.map (sortKey f)).Nodup) (hS : inOrder f (-1) coll = A ++ d :: R) :
    inOrder f (-1) (coll.filter fun doc => decide (sortKey f doc < sortKey f d)) = R := by
  simp only [inOrder, if_true] at hS ⊢
  rw [insertionSort_filter_desc (sortKey f) coll _ hd, hS]
  apply filter_lt_of_strict_desc (sortKey f)
  rw [← hS]
  exact insertionSort_strict_desc (sortKey f) coll hd

theorem inOrder_filter_min (f : String) (kind : Int) (hk : kind ≠ -1) (coll A R : List (D V))
    (d : D V) (hd : (coll.map (sortKey f)).Nodup) (hS : inOrder f kind coll = A ++ d :: R) :
    inOrder f kind (coll.filter fun doc => decide (sortKey f d ≤ sortKey f doc)) = d :: R := by
  simp only [inOrder, hk, if_false] at hS ⊢
  rw [insertionSort_filter (sortKey f) coll _ hd, hS]
  apply filter_ge_of_strict (sortKey f)
  rw [← hS]
  exact insertionSort_strict (sortKey f) coll hd

/-- One call of the paging loop: the page is the next `L` documents of the
ordered collection, the token that of the last document of the page (the
input token on an empty page), and the builder stays a paging builder. -/
theorem Decode_page (coll : List (D V)) (codec : Cursor V) (f : String) (kind : Int) (L : Nat)
    (hf : f ≠ "") (hd : (coll.map (sortKey f)).Nodup)
    (hcodec : ∀ doc ∈ coll,
      (codec.Create [(f, fieldOf doc f)]).2 = none ∧ (codec.Create [(f, fieldOf doc f)]).1 ≠ "" ∧
      codec.Parse (codec.Create [(f, fieldOf doc f)]).1 = (some [(f, fieldOf doc f)], none))
    (q : pagingQuery V (List (D V)) (D V)) (hq : PagingState coll codec f kind L q)
    (token : String) (R : List (D V)) (hal : Aligned coll codec f kind token R) :
    (q.Cursor token).Decode.result = some (R.take L) ∧
    (q.Cursor token).Decode.err = none ∧
    (q.Cursor token).Decode.cursor =
      (match (R.take L).getLast? with
        | some last => (codec.Create [(f, fieldOf last f)]).1
        | none => token) ∧
    PagingState coll codec f kind L (q.Cursor token).Decode.q := by
  obtain ⟨hdb, hcur, hcrit, hproj, hsf, hsk, hlim, hmin, hmax⟩ := hq
  have hRsub : ∀ x ∈ R, x ∈ coll := by
    intro x hx
    refine (inOrder_perm f kind coll).mem_iff.mp ?_
    rcases hal with ⟨-, rfl⟩ | ⟨A, d, hS, -⟩
    · exact hx
    · rw [hS]; exact List.mem_append_right A (List.mem_cons_of_mem d hx)
  -- the state and the command after `getMinOrMax`
  have key : ∃ q1, (q.Cursor token).getMinOrMax = (q1, none) ∧
      PagingState coll codec f kind L q1 ∧ q1.cursorField = f ∧ q1.cursorValue = token ∧
      find coll (commandOf q1) = R.take L := by
    rcases hal with ⟨rfl, rfl⟩ | ⟨A, d, hS, rfl⟩
    · refine ⟨_, getMinOrMax_first (q.Cursor "") rfl, ?_, hsf, rfl, ?_⟩
      · exact ⟨hdb, hcur, hcrit, hproj, hsf, hsk, hlim, fun _ => rfl, fun _ => rfl⟩
      · rw [find_commandOf]
        rotate_left
        · exact hcrit
        · exact hproj
        · show q.sortField ≠ ""
          rw [hsf]; exact hf
        simp [pagingQuery.Cursor, hlim, hsf, hsk]
    · have hdmem : d ∈ coll := by
        refine (inOrder_perm f kind coll).mem_iff.mp ?_
        rw [hS]; exact List.mem_append_right A (List.mem_cons_self d R)
      obtain ⟨-, hne, hparse⟩ := hcodec d hdmem
      have hparse' : (q.Cursor (codec.Create [(f, fieldOf d f)]).1).cursor.Parse
          (q.Cursor (codec.Create [(f, fieldOf d f)]).1).cursorValue =
          (some [(f, fieldOf d f)], none) := by
        show q.cursor.Parse _ = _
        rw [hcur]; exact hparse
      by_cases hk : kind = -1
      · have hk' : (q.Cursor (codec.Create [(f, fieldOf d f)]).1).sortKind = -1 := by
          show q.sortKind = -1
          rw [hsk, hk]
        have hg := getMinOrMax_desc _ hne hk'
        rw [hparse'] at hg
        refine ⟨_, hg, ?_, hsf, rfl, ?_⟩
        · exact ⟨hdb, hcur, hcrit, hproj, hsf, hsk, hlim, hmin, fun h => absurd hk h⟩
        · subst hk
          rw [find_commandOf]
          rotate_left
          · exact hcrit
          · exact hproj
          · show q.sortField ≠ ""
            rw [hsf]; exact hf
          have := inOrder_filter_max f coll A R d hd hS
          simp [pagingQuery.Cursor, hlim, hsf, hsk, hmin rfl, sortKey_fieldOf, this]
      · have hk' : (q.Cursor (codec.Create [(f, fieldOf d f)]).1).sortKind ≠ -1 := by
          show q.sortKind ≠ -1
          rw [hsk]; exact hk
        have hg := getMinOrMax_asc _ hne hk'
        rw [hparse'] at hg
        refine ⟨_, hg, ?_, hsf, rfl, ?_⟩
        · exact ⟨hdb, hcur, hcrit, hproj, hsf, hsk, hlim, fun h => absurd h hk, hmax⟩
        · rw [find_commandOf]
          rotate_left
          · exact hcrit
          · exact hproj
          · show q.sortField ≠ ""
            rw [hsf]; exact hf
          have := inOrder_filter_min f kind hk coll A R d hd hS
          simp [pagingQuery.Cursor, hlim, hsf, hsk, hmax hk, sortKey_fieldOf, this]
  obtain ⟨q1, hg, hq1, hcf, hcv, hfind⟩ := key
  have hpc : (q.Cursor token).prepareCommand = (q1, .ok (commandOf q1)) := by
    have := prepareCommand_eq_ok (q.Cursor token) (by rw [hg])
    rw [hg] at this
    exact this
  have hdec := Decode_collectionDb coll (q.Cursor token) q1 _ hq1.1 hpc (by rw [hcf]; exact hf)
  rw [hdec, hfind, hcf, hcv, hq1.2.1]
  refine ⟨rfl, ?_, rfl, hq1⟩
  cases hl : (R.take L).getLast? with
  | none => rfl
  | some last =>
    have hmem : last ∈ R.take L := List.mem_of_getLast?_eq_some hl
    exact (hcodec last (hRsub last (List.mem_of_mem_take hmem))).1

theorem paginate_aligned (coll : List (D V)) (codec : Cursor V) (f : String) (kind : Int)
    (L : Nat) (hf : f ≠ "") (hL : 1 ≤ L) (hd : (coll.map (sortKey f)).Nodup)
    (hcodec : ∀ doc ∈ coll,
      (codec.Create [(f, fieldOf doc f)]).2 = none ∧ (codec.Create [(f, fieldOf doc f)]).1 ≠ "" ∧
      codec.Parse (codec.Create [(f, fieldOf doc f)]).1 = (some [(f, fieldOf doc f)], none)) :
    ∀ (fuel : Nat) (q : pagingQuery V (List (D V)) (D V)) (token : String) (R : List (D V)),
      PagingState coll codec f kind L q → Aligned coll codec f kind token R → R.length < fuel →
      ((paginate fuel q token).map fun tr => tr.2.result.getD []).flatten = R ∧
      (∀ tr ∈ paginate fuel q token, tr.2.err = none) ∧
      ∃ tr, (paginate fuel q token).getLast? = some tr ∧ tr.2.result = some [] ∧
        tr.2.cursor = tr.1 := by
  intro fuel
  induction fuel with
  | zero => intro q token R _ _ h; exact absurd h (Nat.not_lt_zero _)
  | succ fuel ih =>
    intro q token R hq hal hfuel
    obtain ⟨hres, herr, hcur, hq1⟩ := Decode_page coll codec f kind L hf hd hcodec q hq token R hal
    cases R with
    | nil =>
      have hp : paginate (fuel + 1) q token = [(token, (q.Cursor token).Decode)] := by
        simp [paginate, hres]
      rw [hp]
      refine ⟨by simp [hres], by simp [herr], _, rfl, by simpa using hres, by simpa using hcur⟩
    | cons x R1 =>
      obtain ⟨L1, rfl⟩ : ∃ L1, L = L1 + 1 := ⟨L - 1, by omega⟩
      have htake : (x :: R1).take (L1 + 1) = x :: R1.take L1 := rfl
      have hp : paginate (fuel + 1) q token =
          (token, (q.Cursor token).Decode) ::
            paginate fuel (q.Cursor token).Decode.q (q.Cursor token).Decode.cursor := by
        simp [paginate, hres, herr]
      obtain ⟨P, hP⟩ : ∃ P, inOrder f kind coll = P ++ x :: R1 := by
        rcases hal with ⟨-, h⟩ | ⟨A, d, h, -⟩
        · exact ⟨[], by rw [← h]; rfl⟩
        · exact ⟨A ++ [d], by rw [h]; simp⟩
      obtain ⟨last, hlast⟩ : ∃ last, ((x :: R1).take (L1 + 1)).getLast? = some last := by
        rw [htake]
        exact ⟨_, List.getLast?_eq_getLast _ (List.cons_ne_nil _ _)⟩
      have hsplit := List.dropLast_append_getLast? last hlast
      have hal1 : Aligned coll codec f kind (q.Cursor token).Decode.cursor
          ((x :: R1).drop (L1 + 1)) := by
        rw [hcur, hlast]
        refine Or.inr ⟨P ++ ((x :: R1).take (L1 + 1)).dropLast, last, ?_, rfl⟩
        rw [hP, List.append_assoc]
        congr 1
        calc x :: R1 = (x :: R1).take (L1 + 1) ++ (x :: R1).drop (L1 + 1) :=
              (List.take_append_drop _ _).symm
          _ = (((x :: R1).take (L1 + 1)).dropLast ++ [last]) ++ (x :: R1).drop (L1 + 1) := by
              rw [hsplit]
          _ = _ := by simp
      have hlen : ((x :: R1).drop (L1 + 1)).length < fuel := by
        simp only [List.length_drop, List.length_cons] at hfuel ⊢
        omega
      obtain ⟨h1, h2, tr, h3, h4, h5⟩ := ih _ _ _ hq1 hal1 hlen
      rw [hp]
      refine ⟨?_, ?_, tr, ?_, h4, h5⟩
      · rw [List.map_cons, List.flatten_cons, h1, hres]
        exact List.take_append_drop _ _
      · intro tr1 htr1
        rcases List.mem_cons.mp htr1 with rfl | h
        · exact herr
        · exact h2 tr1 h
      · cases hpg : paginate fuel (q.Cursor token).Decode.q (q.Cursor token).Decode.cursor with
        | nil => rw [hpg] at h3; cases h3
        | cons y ys => rw [hpg] at h3; rw [List.getLast?_cons_cons]; exact h3

end Paging

section EndToEnd

variable [LinearOrder V]

/-- C8, as the code has it: over the find command on a finite collection,
for a sort field `f` that is not empty, values of `f` that are pairwise
distinct and that the codec each encodes to a non-empty token which it
parses back to `{f: value}`, a limit of at least 1 and either direction, the
paging loop of `New(db, name).Sort(±f).Limit(L)` started with the empty
cursor and fed each returned token, with more calls allowed than there are
documents, ends with an empty page; no call gives an error; the pages put
end to end are the whole collection (a permutation of it) in the order of
the sort, strictly descending for `-` and strictly ascending for `+`; and
the empty page returns its input token. -/
theorem paginate_whole_collection (coll : List (D V)) (codec : Cursor V) (name f : String)
    (descending : Bool) (L fuel : Nat) (q1 : pagingQuery V (List (D V)) (D V))
    (hf : f ≠ "") (hL : 1 ≤ L) (hd : (coll.map (sortKey f)).Nodup)
    (hcodec : ∀ doc ∈ coll,
      (codec.Create [(f, fieldOf doc f)]).2 = none ∧ (codec.Create [(f, fieldOf doc f)]).1 ≠ "" ∧
      codec.Parse (codec.Create [(f, fieldOf doc f)]).1 = (some [(f, fieldOf doc f)], none))
    (hsort : (New (collectionDb coll) codec name).Sort ((if descending then "-" else "+") ++ f)
      = some q1)
    (hfuel : coll.length < fuel) :
    (((paginate fuel (q1.Limit L) "").map fun tr => tr.2.result.getD []).flatten =
        inOrder f (if descending then -1 else 1) coll) ∧
    (((paginate fuel (q1.Limit L) "").map fun tr => tr.2.result.getD []).flatten.Perm coll) ∧
    (((paginate fuel (q1.Limit L) "").map fun tr => tr.2.result.getD []).flatten.Pairwise
        fun a b => if descending then sortKey f b < sortKey f a
          else sortKey f a < sortKey f b) ∧
    (∀ tr ∈ paginate fuel (q1.Limit L) "", tr.2.err = none) ∧
    ∃ tr, (paginate fuel (q1.Limit L) "").getLast? = some tr ∧ tr.2.result = some [] ∧
      tr.2.cursor = tr.1 := by
  have hq : PagingState coll codec f (if descending then -1 else 1) L (q1.Limit L) := by
    cases descending with
    | true =>
      have h := sort_minus (New (collectionDb coll) codec name) f.data
      have hs : (New (collectionDb coll) codec name).sort ("-" ++ f) = some q1 := hsort
      rw [show ("-" ++ f) = String.mk ('-' :: f.data) from rfl, h] at hs
      cases hs
      exact ⟨rfl, rfl, rfl, rfl, rfl, rfl, rfl, fun _ => rfl, fun _ => rfl⟩
    | false =>
      have h := sort_plus (New (collectionDb coll) codec name) f.data
      have hs : (New (collectionDb coll) codec name).sort ("+" ++ f) = some q1 := hsort
      rw [show ("+" ++ f) = String.mk ('+' :: f.data) from rfl, h] at hs
      cases hs
      exact ⟨rfl, rfl, rfl, rfl, rfl, rfl, rfl, fun _ => rfl, fun _ => rfl⟩
  have hal : Aligned coll codec f (if descending then -1 else 1) ""
      (inOrder f (if descending then -1 else 1) coll) := Or.inl ⟨rfl, rfl⟩
  have hlen : (inOrder f (if descending then -1 else 1) coll).length < fuel := by
    rw [(inOrder_perm f _ coll).length_eq]; exact hfuel
  obtain ⟨h1, h2, h3⟩ :=
    paginate_aligned coll codec f _ L hf hL hd hcodec fuel (q1.Limit L) "" _ hq hal hlen
  refine ⟨h1, ?_, ?_, h2, h3⟩
  · rw [h1]; exact inOrder_perm f _ coll
  · rw [h1]
    cases descending with
    | true =>
      simp only [inOrder, if_true]
      exact insertionSort_strict_desc (sortKey f) coll hd
    | false =>
      simp only [inOrder, Bool.false_eq_true, if_false, show ¬ ((1 : Int) = -1) by decide]
      exact insertionSort_strict (sortKey f) coll hd

end EndToEnd

/-! ## The scenario of the specification -/

theorem usersSorted_eq : users.Sort "-created_at" = some usersSorted := rfl

theorem usersDesc_fresh : Fresh usersDesc :=
  Fresh.limit 2 (Fresh.sort "-created_at" (Fresh.new _ _ _) usersSorted_eq)

theorem usersDesc_reachable : Reachable usersDesc :=
  Reachable.limit 2 (Reachable.sort "-created_at" (Reachable.new _ _ _) usersSorted_eq)

theorem prepareCommand_rangeBound_witness :
    token4 ≠ "" ∧ usersDesc.cursor.Parse token4 = (some [("created_at", some 4)], none) ∧
    ∃ cmd, (usersDesc.Cursor token4).prepareCommand.2 = .ok cmd ∧
      (usersDesc.sortKind = -1 →
        ("max", CmdVal.d [("created_at", some 4)]) ∈ cmd ∧ (∀ v, ("min", v) ∉ cmd) ∧
          (∀ v, ("skip", v) ∉ cmd)) ∧
      (usersDesc.sortKind = 1 →
        ("min", CmdVal.d [("created_at", some 4)]) ∈ cmd ∧ ("skip", CmdVal.int 1) ∈ cmd ∧
          (∀ v, ("max", v) ∉ cmd)) :=
  ⟨by decide, rfl,
    prepareCommand_rangeBound usersDesc usersDesc_fresh token4 [("created_at", some 4)]
      (by decide) rfl⟩

theorem Decode_nonempty_batch_witness :
    usersDesc.Decode.result = some [[("created_at", some 5)], [("created_at", some 4)]] ∧
    usersDesc.Decode.cursor = token4 ∧ usersDesc.Decode.err = none :=
  have h := Decode_nonempty_batch usersDesc "created_at" rfl (by decide)
    [("find", CmdVal.str "users"), ("limit", CmdVal.uint 2), ("batchSize", CmdVal.uint 2),
      ("singleBatch", CmdVal.bool true), ("sort", CmdVal.m "created_at" (-1))] rfl
    [[("created_at", some 5)], [("created_at", some 4)]]
    [[("created_at", some 5)], [("created_at", some 4)]] [("created_at", some 4)]
    rfl rfl rfl (fieldOf [("created_at", some 4)]) (some 4) rfl rfl
  ⟨h.1, h.2.1, h.2.2.2 rfl⟩

/-- C2 fails as stated: over `nullDocs` the last document of the page has the
field `created_at`, with a null value; `Create` does not encode the nil
value and `Decode` returns the batch with that error, not a nil error. -/
theorem Decode_null_value :
    List.lookup "created_at" ([("created_at", none)] : D Int) = some none ∧
    nullUsers.Decode.result = some [[("created_at", some 1)], [("created_at", none)]] ∧
    nullUsers.Decode.err = some "bson: cannot encode a nil value" :=
  ⟨rfl, rfl, rfl⟩

theorem Decode_empty_batch_witness :
    (usersDesc.Cursor token1).Decode.cursor = token1 ∧
    (usersDesc.Cursor token1).Decode.err = none ∧
    (usersDesc.Cursor token1).Decode.result = some [] :=
  Decode_empty_batch usersDesc token1
    [("find", CmdVal.str "users"), ("limit", CmdVal.uint 2), ("batchSize", CmdVal.uint 2),
      ("singleBatch", CmdVal.bool true), ("sort", CmdVal.m "created_at" (-1)),
      ("max", CmdVal.d [("created_at", some 1)])] rfl [] (some []) rfl rfl rfl

theorem Decode_parse_error_witness :
    ((usersDesc.Cursor "=").cursor.Parse "=").2 = some corruptInput ∧
    (usersDesc.Cursor "=").Decode.err = some corruptInput ∧
    (usersDesc.Cursor "=").Decode.result = none ∧ (usersDesc.Cursor "=").Decode.cursor = "" ∧
    (usersDesc.Cursor "=").Decode.sent = [] :=
  ⟨rfl, Decode_parse_error (usersDesc.Cursor "=") corruptInput (by decide) rfl⟩

theorem prepareCommand_shape_witness :
    (usersDesc.Cursor token4).prepareCommand.2 =
      .ok [("find", CmdVal.str "users"), ("limit", CmdVal.uint 2), ("batchSize", CmdVal.uint 2),
        ("singleBatch", CmdVal.bool true), ("sort", CmdVal.m "created_at" (-1)),
        ("max", CmdVal.d [("created_at", some 4)])] ∧
    ∀ v, ("sort", v) ∈
        ([("find", CmdVal.str "users"), ("limit", CmdVal.uint 2), ("batchSize", CmdVal.uint 2),
          ("singleBatch", CmdVal.bool true), ("sort", CmdVal.m "created_at" (-1)),
          ("max", CmdVal.d [("created_at", some 4)])] : Cmd Int) ↔
      (usersDesc.Cursor token4).sortField ≠ "" ∧
        v = CmdVal.m (usersDesc.Cursor token4).sortField (usersDesc.Cursor token4).sortKind :=
  ⟨rfl, (prepareCommand_shape (usersDesc.Cursor token4)
    (Reachable.cursor token4 usersDesc_reachable) _ rfl).2.2.2.1⟩

theorem Sort_unsigned_witness :
    index0 "created_at" = some 'c' ∧
    users.Sort "created_at" = some { users with sortField := "created_at", sortKind := 1 } :=
  ⟨rfl, Sort_unsigned users "created_at" 'c' rfl (by decide) (by decide)⟩

/-- C10 fails as stated: `Sort("created_at")`, a non-empty string whose
first character `c` is neither `+` nor `-`, sets the direction to ascending
(1), not to descending (-1). -/
theorem Sort_unsigned_not_descending :
    index0 "created_at" = some 'c' ∧
    (users.Sort "created_at").map (fun q => (q.sortField, q.sortKind)) =
      some ("created_at", 1) ∧
    (users.Sort "created_at").map (fun q => decide (q.sortKind = -1)) = some false :=
  ⟨rfl, rfl, rfl⟩

theorem createdAt5_codec : ∀ doc ∈ createdAt5,
    ((cursor int64Bson).Create [("created_at", fieldOf doc "created_at")]).2 = none ∧
    ((cursor int64Bson).Create [("created_at", fieldOf doc "created_at")]).1 ≠ "" ∧
    (cursor int64Bson).Parse ((cursor int64Bson).Create
      [("created_at", fieldOf doc "created_at")]).1 =
        (some [("created_at", fieldOf doc "created_at")], none) := by
  intro doc hdoc
  simp only [createdAt5, List.mem_cons, List.mem_singleton, List.not_mem_nil, or_false] at hdoc
  rcases hdoc with rfl | rfl | rfl | rfl | rfl <;> exact ⟨rfl, by decide, rfl⟩

theorem paginate_whole_collection_witness :
    (paginate 6 usersDesc "").map (fun tr => (tr.1, tr.2.result, tr.2.cursor, tr.2.err)) =
      [("", some [[("created_at", some 5)], [("created_at", some 4)]], token4, none),
       (token4, some [[("created_at", some 3)], [("created_at", some 2)]], token2, none),
       (token2, some [[("created_at", some 1)]], token1, none),
       (token1, some [], token1, none)] ∧
    (((paginate 6 (usersSorted.Limit 2) "").map fun tr => tr.2.result.getD []).flatten.Perm
        createdAt5) ∧
    ∃ tr, (paginate 6 (usersSorted.Limit 2) "").getLast? = some tr ∧ tr.2.result = some [] ∧
      tr.2.cursor = tr.1 :=
  have h := paginate_whole_collection createdAt5 (cursor int64Bson) "users" "created_at" true 2 6
    usersSorted (by decide) (by decide) (by decide) createdAt5_codec rfl (by decide)
  ⟨rfl, h.2.1, h.2.2.2.2⟩


/-! ## Setters, totality of Sort, and repeated command construction -/

theorem sort_total (q : pagingQuery V Reply Raw) (s : String) :
    ∃ f k, q.sort s = some { q with sortField := f, sortKind := k } := by
  obtain ⟨cs⟩ := s
  cases cs with
  | nil => exact ⟨"_id", -1, sort_empty q⟩
  | cons c cs =>
    by_cases hp : c = '+'
    · subst hp; exact ⟨String.mk cs, 1, sort_plus q cs⟩
    · by_cases hm : c = '-'
      · subst hm; exact ⟨String.mk cs, -1, sort_minus q cs⟩
      · exact ⟨String.mk (c :: cs), 1, sort_plain q c cs hp hm⟩

theorem sort_comm (g : pagingQuery V Reply Raw → pagingQuery V Reply Raw)
    (hg : ∀ q f k, g { q with sortField := f, sortKind := k } =
      { g q with sortField := f, sortKind := k })
    (q : pagingQuery V Reply Raw) (s : String) : (g q).sort s = (q.sort s).map g := by
  obtain ⟨cs⟩ := s
  cases cs with
  | nil =>
    have h0 : (String.mk []) = "" := rfl
    rw [h0, sort_empty, sort_empty, Option.map_some']
    exact congrArg some (hg q _ _).symm
  | cons c cs =>
    by_cases hp : c = '+'
    · subst hp; rw [sort_plus, sort_plus, Option.map_some']
      exact congrArg some (hg q _ _).symm
    · by_cases hm : c = '-'
      · subst hm; rw [sort_minus, sort_minus, Option.map_some']
        exact congrArg some (hg q _ _).symm
      · rw [sort_plain _ c cs hp hm, sort_plain _ c cs hp hm, Option.map_some']
        exact congrArg some (hg q _ _).symm

/-- C18: `Sort` is total. For every input string the string that `sort`
indexes (the input, or `-_id` in place of the empty input) has a first
character and a tail, so `field[0]` and `field[1:]` are in range, and `Sort`
returns the builder; in particular on `""`, `"+"` and `"-"`. -/
theorem Sort_total (q : pagingQuery V Reply Raw) (s : String) :
    (∃ c, index0 (if s = "" then "-_id" else s) = some c) ∧
    (∃ rest, slice1 (if s = "" then "-_id" else s) = some rest) ∧
    (∃ q1, q.Sort s = some q1) ∧
    q.Sort "" = some { q with sortField := "_id", sortKind := -1 } ∧
    q.Sort "+" = some { q with sortField := "", sortKind := 1 } ∧
    q.Sort "-" = some { q with sortField := "", sortKind := -1 } := by
  refine ⟨?_, ?_, ?_, sort_empty q, sort_plus q [], sort_minus q []⟩
  · by_cases h : s = ""
    · exact ⟨'-', by rw [if_pos h]; rfl⟩
    · rw [if_neg h]
      obtain ⟨cs⟩ := s
      cases cs with
      | nil => exact absurd rfl h
      | cons c cs => exact ⟨c, rfl⟩
  · by_cases h : s = ""
    · exact ⟨"_id", by rw [if_pos h]; rfl⟩
    · rw [if_neg h]
      obtain ⟨cs⟩ := s
      cases cs with
      | nil => exact absurd rfl h
      | cons c cs => exact ⟨String.mk cs, rfl⟩
  · obtain ⟨f, k, h⟩ := sort_total q s
    exact ⟨_, h⟩

/-- C15: each of `Find`, `Limit`, `Select` and `Cursor` changes exactly its
own field (criteria, limit, projection, cursorValue) and `Sort` changes only
sortField and sortKind; setters on distinct fields commute. -/
theorem setters_frame (q : pagingQuery V Reply Raw) (c p : Option V) (n : Nat) (t s : String) :
    q.Find c = { q with criteria := c } ∧
    q.Limit n = { q with limit := n } ∧
    q.Select p = { q with projection := p } ∧
    q.Cursor t = { q with cursorValue := t } ∧
    (∃ f k, q.Sort s = some { q with sortField := f, sortKind := k }) ∧
    (q.Find c).Limit n = (q.Limit n).Find c ∧
    (q.Find c).Select p = (q.Select p).Find c ∧
    (q.Find c).Cursor t = (q.Cursor t).Find c ∧
    (q.Limit n).Select p = (q.Select p).Limit n ∧
    (q.Limit n).Cursor t = (q.Cursor t).Limit n ∧
    (q.Select p).Cursor t = (q.Cursor t).Select p ∧
    (q.Find c).Sort s = (q.Sort s).map (fun q1 => q1.Find c) ∧
    (q.Limit n).Sort s = (q.Sort s).map (fun q1 => q1.Limit n) ∧
    (q.Select p).Sort s = (q.Sort s).map (fun q1 => q1.Select p) ∧
    (q.Cursor t).Sort s = (q.Sort s).map (fun q1 => q1.Cursor t) := by
  refine ⟨rfl, rfl, rfl, rfl, sort_total q s, rfl, rfl, rfl, rfl, rfl, rfl, ?_, ?_, ?_, ?_⟩
  · exact sort_comm (fun q1 => q1.Find c) (fun _ _ _ => rfl) q s
  · exact sort_comm (fun q1 => q1.Limit n) (fun _ _ _ => rfl) q s
  · exact sort_comm (fun q1 => q1.Select p) (fun _ _ _ => rfl) q s
  · exact sort_comm (fun q1 => q1.Cursor t) (fun _ _ _ => rfl) q s


theorem getMinOrMax_idem (q : pagingQuery V Reply Raw) :
    q.getMinOrMax.1.getMinOrMax = q.getMinOrMax := by
  by_cases h : q.cursorValue = ""
  · rw [getMinOrMax_first q h]
    exact getMinOrMax_first _ h
  · by_cases hk : q.sortKind = -1
    · rw [getMinOrMax_desc q h hk]
      exact getMinOrMax_desc _ h hk
    · rw [getMinOrMax_asc q h hk]
      exact getMinOrMax_asc _ h hk

theorem prepareCommand_eq (q : pagingQuery V Reply Raw) :
    q.prepareCommand =
      (q.getMinOrMax.1,
        match q.getMinOrMax.2 with
        | some e => .error e
        | none => .ok (commandOf q.getMinOrMax.1)) := by
  cases h : q.getMinOrMax.2 with
  | some e => exact prepareCommand_eq_error q e h
  | none => exact prepareCommand_eq_ok q h

theorem prepareCommand_idem (q : pagingQuery V Reply Raw) :
    q.prepareCommand.1.prepareCommand = q.prepareCommand := by
  rw [prepareCommand_fst, prepareCommand_eq q.getMinOrMax.1, getMinOrMax_idem,
    ← prepareCommand_eq]

theorem Decode_of_prepareCommand (q p : pagingQuery V Reply Raw)
    (h : p.prepareCommand = q.prepareCommand) : p.Decode = q.Decode := by
  unfold pagingQuery.Decode
  rw [h]

/-- C16: command construction is idempotent. A second `prepareCommand`
right after a first returns the same command or error and leaves the
builder as the first left it; so a `Decode` after `Explain` returns what
`Decode` alone returns and sends the same command. -/
theorem prepareCommand_idempotent (q : pagingQuery V Reply Raw) :
    q.prepareCommand.1.prepareCommand.2 = q.prepareCommand.2 ∧
    q.prepareCommand.1.prepareCommand.1 = q.prepareCommand.1 ∧
    q.Explain.Decode = q.Decode ∧
    q.Explain.Decode.sent = q.Decode.sent := by
  have h := prepareCommand_idem q
  have hd : q.Explain.Decode = q.Decode := Decode_of_prepareCommand q q.Explain h
  exact ⟨congrArg Prod.snd h, congrArg Prod.fst h, hd, congrArg DecodeResult.sent hd⟩

/-- C13: whenever the cursor token is the empty string, in every builder
state (reachable or not, whatever bounds earlier pages left), command
construction succeeds and the command contains none of `min`, `max` and
`skip`. -/
theorem prepareCommand_first_page (q : pagingQuery V Reply Raw) (h : q.cursorValue = "") :
    ∃ cmd, q.prepareCommand.2 = .ok cmd ∧
      (∀ v, ("min", v) ∉ cmd) ∧ (∀ v, ("max", v) ∉ cmd) ∧ (∀ v, ("skip", v) ∉ cmd) := by
  have hg := getMinOrMax_first q h
  refine ⟨_, prepareCommand_ok q (by rw [hg]), ?_⟩
  rw [hg]
  cases hc : q.criteria <;> cases hp : q.projection <;>
    by_cases hs : q.sortField = "" <;>
    simp [commandOf, hc, hp, hs]

/-- C14: when the sort field `f` is non-empty, the executor returns a
non-empty batch and `cursor.Create` fails with error `e` on `{f: v}`,
`Decode` returns `e` together with the whole batch. -/
theorem Decode_create_error (q : pagingQuery V Reply Raw) (f : String)
    (hf : q.sortField = f) (hne : f ≠ "") (cmd : Cmd V)
    (hcmd : q.prepareCommand.2 = .ok cmd) (reply : Reply) (batch : List Raw) (last : Raw)
    (hrun : q.db.RunCommand cmd = (reply, none))
    (hreply : q.db.UnmarshalReply reply = (some batch, none))
    (hlast : batch.getLast? = some last) (doc : M V) (v : Option V)
    (hdoc : q.db.UnmarshalDoc last = (doc, none)) (hv : doc f = v) (e : Error)
    (hcreate : (q.cursor.Create [(f, v)]).2 = some e) :
    q.Decode.result = some batch ∧ q.Decode.err = some e := by
  obtain ⟨hpc, -⟩ := prepareCommand_cases q cmd hcmd
  obtain ⟨hdb, -, -, -, -, hsf, -, -, hcur, hcf⟩ := getMinOrMax_frame q
  have hcf' : q.getMinOrMax.1.cursorField = f := by rw [hcf, hf]
  subst hv
  unfold pagingQuery.Decode
  simp [hpc, hdb, hrun, hreply, hlast, hdoc, hcur, hcf', hcreate, hne]

theorem Unsorted.sortField {q : pagingQuery V Reply Raw} (h : Unsorted q) :
    q.sortField = "" := by
  induction h with
  | new => rfl
  | find _ _ ih => exact ih
  | limit _ _ ih => exact ih
  | cursor _ _ ih => exact ih
  | select _ _ ih => exact ih
  | @decode q _ ih =>
    obtain ⟨-, -, -, -, -, hf, -⟩ := getMinOrMax_frame q
    rw [Decode_q, hf]; exact ih
  | @explain q _ ih =>
    obtain ⟨-, -, -, -, -, hf, -⟩ := getMinOrMax_frame q
    rw [Explain_eq, hf]; exact ih

theorem commandOf_sort (q : pagingQuery V Reply Raw) (v : CmdVal V) :
    ("sort", v) ∈ commandOf q ↔ q.sortField ≠ "" ∧ v = CmdVal.m q.sortField q.sortKind := by
  cases hc : q.criteria <;> cases hp : q.projection <;>
    cases hn : q.min <;> cases hx : q.max <;>
    by_cases hs : q.sortField = "" <;>
    simp [commandOf, hc, hp, hn, hx, hs, eq_comm]

/-- On every builder from `New` on which `Sort` has never been called the
sort field is empty, a command that is built has no `sort` entry and the
cursor field for the next token is empty; after `Sort("")` a command that is
built has the `sort` entry `{_id: -1}` and the cursor field is `_id`. -/
theorem prepareCommand_unsorted (q : pagingQuery V Reply Raw) (hq : Unsorted q) :
    q.sortField = "" ∧ q.prepareCommand.1.cursorField = "" ∧
    (∀ cmd, q.prepareCommand.2 = .ok cmd → ∀ v, ("sort", v) ∉ cmd) ∧
    (∀ q1 cmd, q.Sort "" = some q1 → q1.prepareCommand.2 = .ok cmd →
      ("sort", CmdVal.m "_id" (-1)) ∈ cmd ∧ q1.prepareCommand.1.cursorField = "_id") := by
  have hs := Unsorted.sortField hq
  refine ⟨hs, ?_, ?_, ?_⟩
  · rw [prepareCommand_fst, (getMinOrMax_frame q).2.2.2.2.2.2.2.2.2, hs]
  · intro cmd hcmd v hv
    obtain ⟨-, rfl⟩ := prepareCommand_cases q cmd hcmd
    have := ((commandOf_sort _ v).mp hv).1
    rw [(getMinOrMax_frame q).2.2.2.2.2.1] at this
    exact this hs
  · intro q1 cmd hq1 hcmd
    have hq1' : q.sort "" = some q1 := hq1
    rw [sort_empty] at hq1'
    cases hq1'
    obtain ⟨-, rfl⟩ := prepareCommand_cases _ cmd hcmd
    obtain ⟨-, -, -, -, hk, hf, -, -, -, hcf⟩ := getMinOrMax_frame
      ({ q with sortField := "_id", sortKind := -1 } : pagingQuery V Reply Raw)
    refine ⟨(commandOf_sort _ _).mpr ⟨?_, ?_⟩, ?_⟩
    · rw [hf]; show ("_id" : String) ≠ ""; decide
    · rw [hf, hk]
    · rw [prepareCommand_fst, hcf]


/-! ## The bounds in the command -/

theorem commandOf_skip (q : pagingQuery V Reply Raw) (v : CmdVal V) :
    ("skip", v) ∈ commandOf q ↔ q.min ≠ none ∧ v = CmdVal.int 1 := by
  cases hc : q.criteria <;> cases hp : q.projection <;>
    cases hn : q.min <;> cases hx : q.max <;>
    by_cases hs : q.sortField = "" <;>
    simp [commandOf, hc, hp, hn, hx, hs, eq_comm]

theorem commandOf_min (q : pagingQuery V Reply Raw) (v : CmdVal V) :
    ("min", v) ∈ commandOf q ↔ ∃ d, q.min = some d ∧ v = CmdVal.d d := by
  cases hc : q.criteria <;> cases hp : q.projection <;>
    cases hn : q.min <;> cases hx : q.max <;>
    by_cases hs : q.sortField = "" <;>
    simp [commandOf, hc, hp, hn, hx, hs, eq_comm]

theorem commandOf_max (q : pagingQuery V Reply Raw) (v : CmdVal V) :
    ("max", v) ∈ commandOf q ↔ ∃ d, q.max = some d ∧ v = CmdVal.d d := by
  cases hc : q.criteria <;> cases hp : q.projection <;>
    cases hn : q.min <;> cases hx : q.max <;>
    by_cases hs : q.sortField = "" <;>
    simp [commandOf, hc, hp, hn, hx, hs, eq_comm]

/-- C12, as the code has it: in a command that is built every `skip` entry
has value 1, and the bound of the current direction (`max` when sorting
descending, `min` otherwise) is the document that `Parse` decodes from the
non-empty cursor token, whatever its fields: it is the single-field
document `{sortField: x}` when the token encodes that document. -/
theorem prepareCommand_bounds (q : pagingQuery V Reply Raw) (cmd : Cmd V)
    (h : q.prepareCommand.2 = .ok cmd) :
    (∀ v, ("skip", v) ∈ cmd → v = CmdVal.int 1) ∧
    (q.cursorValue ≠ "" → q.sortKind = -1 → ∀ v, ("max", v) ∈ cmd →
      ∃ d, q.cursor.Parse q.cursorValue = (some d, none) ∧ v = CmdVal.d d) ∧
    (q.cursorValue ≠ "" → q.sortKind ≠ -1 → ∀ v, ("min", v) ∈ cmd →
      ∃ d, q.cursor.Parse q.cursorValue = (some d, none) ∧ v = CmdVal.d d) ∧
    (∀ x, q.cursorValue ≠ "" →
      q.cursor.Parse q.cursorValue = (some [(q.sortField, x)], none) →
      (q.sortKind = -1 → ("max", CmdVal.d [(q.sortField, x)]) ∈ cmd) ∧
      (q.sortKind ≠ -1 → ("min", CmdVal.d [(q.sortField, x)]) ∈ cmd)) := by
  obtain ⟨hpc, rfl⟩ := prepareCommand_cases q cmd h
  have herr : q.getMinOrMax.2 = none := by
    cases he : q.getMinOrMax.2 with
    | none => rfl
    | some e => rw [prepareCommand_error q e he] at h; cases h
  refine ⟨?_, ?_, ?_, ?_⟩
  · intro v hv
    exact ((commandOf_skip _ v).mp hv).2
  · intro hne hk v hv
    obtain ⟨d, hd, rfl⟩ := (commandOf_max _ v).mp hv
    have hg := getMinOrMax_desc q hne hk
    rw [hg] at hd herr
    exact ⟨d, Prod.ext hd herr, rfl⟩
  · intro hne hk v hv
    obtain ⟨d, hd, rfl⟩ := (commandOf_min _ v).mp hv
    have hg := getMinOrMax_asc q hne hk
    rw [hg] at hd herr
    exact ⟨d, Prod.ext hd herr, rfl⟩
  · intro x hne hparse
    constructor
    · intro hk
      refine (commandOf_max _ _).mpr ⟨_, ?_, rfl⟩
      rw [getMinOrMax_desc q hne hk, hparse]
    · intro hk
      refine (commandOf_min _ _).mpr ⟨_, ?_, rfl⟩
      rw [getMinOrMax_asc q hne hk, hparse]

theorem prepareCommand_bounds_witness :
    (usersDesc.Cursor token4).prepareCommand.2 =
      .ok [("find", CmdVal.str "users"), ("limit", CmdVal.uint 2), ("batchSize", CmdVal.uint 2),
        ("singleBatch", CmdVal.bool true), ("sort", CmdVal.m "created_at" (-1)),
        ("max", CmdVal.d [("created_at", some 4)])] ∧
    ("max", CmdVal.d [("created_at", some 4)]) ∈
      ([("find", CmdVal.str "users"), ("limit", CmdVal.uint 2), ("batchSize", CmdVal.uint 2),
        ("singleBatch", CmdVal.bool true), ("sort", CmdVal.m "created_at" (-1)),
        ("max", CmdVal.d [("created_at", some 4)])] : Cmd Int) :=
  ⟨rfl, ((prepareCommand_bounds (usersDesc.Cursor token4)
    [("find", CmdVal.str "users"), ("limit", CmdVal.uint 2), ("batchSize", CmdVal.uint 2),
      ("singleBatch", CmdVal.bool true), ("sort", CmdVal.m "created_at" (-1)),
      ("max", CmdVal.d [("created_at", some 4)])] rfl).2.2.2 (some 4) (by decide) rfl).1 rfl⟩

/-- C12 fails as stated: with the token of the two-field document
`{a: 1, b: -2}` the command is built, and its `max` entry is that document,
which has two fields, neither named after the sort field `created_at`. -/
theorem prepareCommand_bound_unchecked :
    (usersDesc.Cursor tokenAB).prepareCommand.2 =
      .ok [("find", CmdVal.str "users"), ("limit", CmdVal.uint 2), ("batchSize", CmdVal.uint 2),
        ("singleBatch", CmdVal.bool true), ("sort", CmdVal.m "created_at" (-1)),
        ("max", CmdVal.d [("a", some 1), ("b", some (-2))])] :=
  rfl

/-- C17: two reachable builders with the same configuration build different
commands. After a descending page bounded by `token4`, `Sort("+created_at")`
leaves the `max` of that page in place: the command has both `min` and
`max`, and over the five documents it returns nothing, where the builder
configured afresh returns the document after the boundary. -/
theorem prepareCommand_stale_bound :
    usersTurned.config = usersAsc.config ∧
    usersAsc.prepareCommand.2 =
      .ok [("find", CmdVal.str "users"), ("limit", CmdVal.uint 2), ("batchSize", CmdVal.uint 2),
        ("singleBatch", CmdVal.bool true), ("sort", CmdVal.m "created_at" 1),
        ("skip", CmdVal.int 1), ("min", CmdVal.d [("created_at", some 4)])] ∧
    usersTurned.prepareCommand.2 =
      .ok [("find", CmdVal.str "users"), ("limit", CmdVal.uint 2), ("batchSize", CmdVal.uint 2),
        ("singleBatch", CmdVal.bool true), ("sort", CmdVal.m "created_at" 1),
        ("skip", CmdVal.int 1), ("min", CmdVal.d [("created_at", some 4)]),
        ("max", CmdVal.d [("created_at", some 4)])] ∧
    usersAsc.Decode.result = some [[("created_at", some 5)]] ∧
    usersTurned.Decode.result = some [] :=
  ⟨rfl, rfl, rfl, rfl, rfl⟩

theorem usersTurned_reachable : Reachable usersTurned ∧ Reachable usersAsc :=
  ⟨Reachable.sort "+created_at"
      (Reachable.decode (Reachable.cursor token4 usersDesc_reachable)) rfl,
    Reachable.cursor token4
      (Reachable.limit 2 (Reachable.sort "+created_at" (Reachable.new _ _ _) rfl))⟩

theorem users_unsorted :
    (users.Limit 2).sortField = "" ∧ (users.Limit 2).prepareCommand.1.cursorField = "" :=
  ⟨(prepareCommand_unsorted (users.Limit 2) (Unsorted.limit 2 (Unsorted.new _ _ _))).1,
    (prepareCommand_unsorted (users.Limit 2) (Unsorted.limit 2 (Unsorted.new _ _ _))).2.1⟩

/-- C11: the code misses the default. The builder `New(db, "users")`, on
which `Sort` was never called, builds a command without a `sort` entry and
has no cursor field, and with `Limit(2)` its `Decode` returns two documents
and an empty next token; only `Sort("")` sets the documented default, field
`_id` descending. -/
theorem New_without_default_sort :
    users.prepareCommand.2 =
      .ok [("find", CmdVal.str "users"), ("limit", CmdVal.uint 0), ("batchSize", CmdVal.uint 0),
        ("singleBatch", CmdVal.bool true)] ∧
    users.prepareCommand.1.cursorField = "" ∧
    (users.Limit 2).Decode.result =
      some [[("created_at", some 1)], [("created_at", some 2)]] ∧
    (users.Limit 2).Decode.cursor = "" ∧
    (users.Sort "").map (fun q => (q.sortField, q.sortKind)) = some ("_id", -1) :=
  ⟨rfl, rfl, rfl, rfl, rfl⟩

theorem prepareCommand_first_page_witness :
    (usersDesc.Cursor token4).Decode.q.max = some [("created_at", some 4)] ∧
    ∃ cmd, ((usersDesc.Cursor token4).Decode.q.Cursor "").prepareCommand.2 = .ok cmd ∧
      (∀ v, ("min", v) ∉ cmd) ∧ (∀ v, ("max", v) ∉ cmd) ∧ (∀ v, ("skip", v) ∉ cmd) :=
  ⟨rfl, prepareCommand_first_page ((usersDesc.Cursor token4).Decode.q.Cursor "") rfl⟩

theorem Decode_create_error_witness :
    bigUsers.Decode.result = some bigDocs ∧
    bigUsers.Decode.err = some "bson: value outside the int64 fragment" :=
  Decode_create_error bigUsers "created_at" rfl (by decide)
    [("find", CmdVal.str "users"), ("limit", CmdVal.uint 2), ("batchSize", CmdVal.uint 2),
      ("singleBatch", CmdVal.bool true), ("sort", CmdVal.m "created_at" (-1))] rfl
    bigDocs bigDocs [("created_at", some 9223372036854775808)] rfl rfl rfl
    (fieldOf [("created_at", some 9223372036854775808)]) (some 9223372036854775808) rfl rfl
    "bson: value outside the int64 fragment" rfl


/-- C8 fails as stated. Over `nullDocs`, whose values of `created_at` are
distinct, the first page ends with the document whose value is null:
`Create` fails and the loop stops on that error, with no empty page. Over
`blankDocs`, with `Sort("-")` and so no sort field, every call returns the
first document and an empty token: three calls for two documents, no empty
page. -/
theorem paginate_stops_or_stalls :
    (paginate 3 nullUsers "").map (fun tr => (tr.1, tr.2.result, tr.2.cursor, tr.2.err)) =
      [("", some [[("created_at", some 1)], [("created_at", none)]], "",
        some "bson: cannot encode a nil value")] ∧
    (paginate 3 blankUsers "").map (fun tr => (tr.1, tr.2.result, tr.2.cursor, tr.2.err)) =
      [("", some [[("", some 1)]], "", none), ("", some [[("", some 1)]], "", none),
       ("", some [[("", some 1)]], "", none)] :=
  ⟨rfl, rfl⟩

end mongopaging
